import Mathlib

/-!
# Statistics and least-squares regression (`regression.c`)

A shallow embedding of the functions of `regression.c` together with the
properties of them that are stated in the specification.

## Two models of `double`

The C code computes in `double`.  Two arithmetics are given for it.

* *Exact arithmetic.*  A `double` is an element of an ordered field `K` (all
  definitions are computable at `K = ℚ`, all theorems hold at `K = ℝ`) extended
  with the three special values of IEEE-754: `+∞`, `-∞` and NaN.  Finite
  arithmetic is exact (no rounding, no overflow); the special values follow the
  IEEE-754 tables.  The properties that are stated in exact arithmetic are
  proved in this model.
* *Binary64.*  In the namespace `Binary64` every finite result is rounded to
  the nearest binary64 value.  The functions that do not call `sqrt` are
  transcribed a second time over this arithmetic; the properties that depend on
  rounding, and the inputs on which the rounded computation departs from exact
  arithmetic, are proved in this model.

Signed zeros are not distinguished: every zero divisor the program can produce
is `+0` or is paired with a zero dividend.

## Model of arrays and loops

An array parameter is a list; a read past its end (undefined behaviour in C)
yields `0`, and the properties concern sizes that do not exceed the length.
A counted loop `for (int i = 0; i < size; i++)` is a left fold over
`List.range size.toNat`.
-/

namespace Regression

/-- The values of a C `double` in exact arithmetic over `K`: a finite value, an
infinity, or NaN. -/
inductive Double (K : Type) where
  | fin (v : K)
  | pinf
  | ninf
  | nan
deriving DecidableEq

namespace Double

variable {K : Type} [LinearOrderedField K]

/-- Conversion `int → double` (exact). -/
def ofInt (z : Int) : Double K := fin (z : K)

/-- Unary minus. -/
def neg : Double K → Double K
  | fin a => fin (-a)
  | pinf => ninf
  | ninf => pinf
  | nan => nan

/-- Addition `a + b` of doubles. -/
def add : Double K → Double K → Double K
  | fin a, fin b => fin (a + b)
  | fin _, pinf => pinf
  | fin _, ninf => ninf
  | pinf, fin _ => pinf
  | pinf, pinf => pinf
  | ninf, fin _ => ninf
  | ninf, ninf => ninf
  | _, _ => nan

/-- Subtraction `a - b` of doubles. -/
def sub (a b : Double K) : Double K := add a (neg b)

/-- The infinity with the sign of a nonzero `a`. -/
def infOfSign (a : K) : Double K := if 0 < a then pinf else ninf

/-- Multiplication `a * b` of doubles; `0 * ∞` is NaN. -/
def mul : Double K → Double K → Double K
  | fin a, fin b => fin (a * b)
  | fin a, pinf => if a = 0 then nan else infOfSign a
  | fin a, ninf => if a = 0 then nan else infOfSign (-a)
  | pinf, fin b => if b = 0 then nan else infOfSign b
  | ninf, fin b => if b = 0 then nan else infOfSign (-b)
  | pinf, pinf => pinf
  | pinf, ninf => ninf
  | ninf, pinf => ninf
  | ninf, ninf => pinf
  | _, _ => nan

/-- Division `a / b` of doubles; `0 / 0` and `∞ / ∞` are NaN, a nonzero finite
value divided by zero is an infinity, a finite value divided by an infinity is
zero. -/
def div : Double K → Double K → Double K
  | fin a, fin b =>
    if b = 0 then (if a = 0 then nan else infOfSign a) else fin (a / b)
  | fin _, pinf => fin 0
  | fin _, ninf => fin 0
  | pinf, fin b => if b < 0 then ninf else pinf
  | ninf, fin b => if b < 0 then pinf else ninf
  | _, _ => nan

/-- The function `sqrt` of `math.h`, over a square root `sq` of the nonnegative
elements of `K`: NaN on negative arguments. -/
def sqrt (sq : K → K) : Double K → Double K
  | fin a => if a < 0 then nan else fin (sq a)
  | pinf => pinf
  | ninf => nan
  | nan => nan

instance : Add (Double K) := ⟨add⟩
instance : Sub (Double K) := ⟨sub⟩
instance : Mul (Double K) := ⟨mul⟩
instance : Div (Double K) := ⟨div⟩

end Double

open Double

section Functions

variable (K : Type) [LinearOrderedField K]

/-- The function `sample_average` (regression.c, lines 9-15). -/
def sample_average (arr : List Int) (size : Int) : Double K :=
  let sum := (List.range size.toNat).foldl
    (fun sum i => sum + ofInt (arr.getD i 0)) (fin 0)
  sum / ofInt size

/-- The function `calculate_variance` (regression.c, lines 18-26). -/
def calculate_variance (arr : List Int) (size : Int) : Double K :=
  let mean := sample_average K arr size
  let sum := (List.range size.toNat).foldl
    (fun sum i => sum + (ofInt (arr.getD i 0) - mean) * (ofInt (arr.getD i 0) - mean))
    (fin 0)
  sum / ofInt size

/-- The function `covariance` (regression.c, lines 34-43). -/
def covariance (x y : List Int) (size : Int) : Double K :=
  let mean_x := sample_average K x size
  let mean_y := sample_average K y size
  let sum := (List.range size.toNat).foldl
    (fun sum i => sum + (ofInt (x.getD i 0) - mean_x) * (ofInt (y.getD i 0) - mean_y))
    (fin 0)
  sum / ofInt size

end Functions

section Functions

variable {K : Type} [LinearOrderedField K]

/-- The function `standard_deviation` (regression.c, lines 29-31); `sq` is the
square root behind `sqrt`. -/
def standard_deviation (sq : K → K) (arr : List Int) (size : Int) : Double K :=
  Double.sqrt sq (sample_average K arr size)

/-- The function `correlation` (regression.c, lines 46-52). -/
def correlation (sq : K → K) (x y : List Int) (size : Int) : Double K :=
  let cov := covariance K x y size
  let std_dev_x := standard_deviation sq x size
  let std_dev_y := standard_deviation sq y size
  cov / (std_dev_x * std_dev_y)

end Functions

/-- The structure `LinearModel` (regression.c, lines 57-60): slope `m` and
y-intercept `b`. -/
structure LinearModel (K : Type) where
  m : Double K
  b : Double K
deriving DecidableEq

/-- The four accumulators of the loop of `linear_regression`. -/
structure Sums (K : Type) where
  sum_x : Double K
  sum_y : Double K
  sum_x2 : Double K
  sum_xy : Double K
deriving DecidableEq

section Functions

variable {K : Type} [LinearOrderedField K]

/-- The loop of `linear_regression` (regression.c, lines 64-71). -/
def regression_sums (x y : List (Double K)) (size : Int) : Sums K :=
  (List.range size.toNat).foldl
    (fun s i =>
      { sum_x := s.sum_x + x.getD i (fin 0)
        sum_y := s.sum_y + y.getD i (fin 0)
        sum_x2 := s.sum_x2 + x.getD i (fin 0) * x.getD i (fin 0)
        sum_xy := s.sum_xy + x.getD i (fin 0) * y.getD i (fin 0) })
    { sum_x := fin 0, sum_y := fin 0, sum_x2 := fin 0, sum_xy := fin 0 }

/-- The function `linear_regression` (regression.c, lines 63-79). -/
def linear_regression (x y : List (Double K)) (size : Int) : LinearModel K :=
  let s := regression_sums x y size
  let m := (ofInt size * s.sum_xy - s.sum_x * s.sum_y) /
    (ofInt size * s.sum_x2 - s.sum_x * s.sum_x)
  let b := (s.sum_y - m * s.sum_x) / ofInt size
  { m := m, b := b }

end Functions

/-! ## Specification-side quantities -/

section Sums

variable {K : Type} [LinearOrderedField K]

/-- The residual sum of squares `Σ (yᵢ - (m·xᵢ + b))²` of the line `y = m·x + b`
over the first `n` points. -/
def rss (xs ys : List K) (n : Nat) (m b : K) : K :=
  ∑ i in Finset.range n, (ys.getD i 0 - (m * xs.getD i 0 + b)) ^ 2

/-- The sum `Σ xᵢ` over the first `n` elements. -/
def sumX (xs : List K) (n : Nat) : K := ∑ i in Finset.range n, xs.getD i 0

/-- The sum `Σ xᵢ·yᵢ` over the first `n` pairs. -/
def sumXY (xs ys : List K) (n : Nat) : K :=
  ∑ i in Finset.range n, xs.getD i 0 * ys.getD i 0

/-- The denominator `n·Σx² - (Σx)²` of the slope. -/
def slopeDen (xs : List K) (n : Nat) : K :=
  (n : K) * sumXY xs xs n - sumX xs n * sumX xs n

/-- The numerator `n·Σxy - Σx·Σy` of the slope. -/
def slopeNum (xs ys : List K) (n : Nat) : K :=
  (n : K) * sumXY xs ys n - sumX xs n * sumX ys n

/-- The first `n` values of `xs` are all equal. -/
def AllEqual (xs : List K) (n : Nat) : Prop :=
  ∀ i < n, ∀ j < n, xs.getD i 0 = xs.getD j 0

/-- The sum `Σ arr[i]` of the first `n` elements of an integer array, as an
element of `K`. -/
def intSum (K : Type) [LinearOrderedField K] (arr : List Int) (n : Nat) : K :=
  ∑ i in Finset.range n, ((arr.getD i 0 : Int) : K)

/-- The population variance `(1/n)·Σ (xᵢ - mean)²` of the first `n` values,
with `mean = (Σ xᵢ) / n`. -/
def popVar (xs : List K) (n : Nat) : K :=
  1 / (n : K) * ∑ i in Finset.range n, (xs.getD i 0 - sumX xs n / n) ^ 2

/-- The population covariance `(1/n)·Σ (xᵢ - mean_x)·(yᵢ - mean_y)` of the first
`n` pairs. -/
def popCov (xs ys : List K) (n : Nat) : K :=
  1 / (n : K) * ∑ i in Finset.range n,
    (xs.getD i 0 - sumX xs n / n) * (ys.getD i 0 - sumX ys n / n)

/-- The first `n` elements of an integer array are all equal. -/
def AllEqualInt (arr : List Int) (n : Nat) : Prop :=
  ∀ i < n, ∀ j < n, arr.getD i 0 = arr.getD j 0

/-- An integer array read as a sequence of elements of `K`. -/
def toField (K : Type) [LinearOrderedField K] (arr : List Int) : List K :=
  arr.map (fun z : Int => (z : K))

end Sums

/-! ## A second model of `double`: IEEE-754 binary64 with rounding

In the definitions above finite arithmetic is exact.  The definitions of this
section round every finite result to the nearest binary64 value (ties to even,
overflow to an infinity, gradual underflow); the special values follow the same
tables.  Each operation rounds once, on its own (no fused multiply-add, no
extended precision); signed zeros are not distinguished.  The functions
`sample_average`, `calculate_variance`, `covariance` and `linear_regression` of
`regression.c` are transcribed a second time over this arithmetic. -/

namespace Binary64

/-- Round to the nearest integer, ties to the even one. -/
def roundEven (r : ℚ) : ℤ :=
  if r - ⌊r⌋ < 1 / 2 then ⌊r⌋
  else if 1 / 2 < r - ⌊r⌋ then ⌊r⌋ + 1
  else if ⌊r⌋ % 2 = 0 then ⌊r⌋ else ⌊r⌋ + 1

/-- The exponent of the unit in the last place of a binary64 value near `q`:
`52` below the binary exponent of `q`, and `-1074` in the subnormal range. -/
def ulpExp (q : ℚ) : ℤ := max (Int.log 2 |q|) (-1022) - 52

/-- Rounding of an exact value to binary64: the nearest multiple of the unit in
the last place, ties to even; an infinity when the rounded value reaches
`2 ^ 1024`. -/
def rnd (q : ℚ) : Double ℚ :=
  let r : ℚ := (roundEven (q / 2 ^ ulpExp q) : ℚ) * 2 ^ ulpExp q
  if 2 ^ (1024 : ℤ) ≤ r then pinf else if r ≤ -2 ^ (1024 : ℤ) then ninf else fin r

/-- Rounding of the exact result of an operation; the special values are kept. -/
def round64 : Double ℚ → Double ℚ
  | fin q => rnd q
  | pinf => pinf
  | ninf => ninf
  | nan => nan

/-- Addition in binary64. -/
def add64 (a b : Double ℚ) : Double ℚ := round64 (Double.add a b)

/-- Subtraction in binary64. -/
def sub64 (a b : Double ℚ) : Double ℚ := round64 (Double.sub a b)

/-- Multiplication in binary64. -/
def mul64 (a b : Double ℚ) : Double ℚ := round64 (Double.mul a b)

/-- Division in binary64. -/
def div64 (a b : Double ℚ) : Double ℚ := round64 (Double.div a b)

/-- Conversion `int → double` in binary64. -/
def ofInt64 (z : Int) : Double ℚ := rnd (z : ℚ)

/-- The function `sample_average` (regression.c, lines 9-15) in binary64. -/
def sample_average (arr : List Int) (size : Int) : Double ℚ :=
  let sum := (List.range size.toNat).foldl
    (fun sum i => add64 sum (ofInt64 (arr.getD i 0))) (fin 0)
  div64 sum (ofInt64 size)

/-- The function `calculate_variance` (regression.c, lines 18-26) in binary64. -/
def calculate_variance (arr : List Int) (size : Int) : Double ℚ :=
  let mean := Binary64.sample_average arr size
  let sum := (List.range size.toNat).foldl
    (fun sum i => add64 sum
      (mul64 (sub64 (ofInt64 (arr.getD i 0)) mean) (sub64 (ofInt64 (arr.getD i 0)) mean)))
    (fin 0)
  div64 sum (ofInt64 size)

/-- The function `covariance` (regression.c, lines 34-43) in binary64. -/
def covariance (x y : List Int) (size : Int) : Double ℚ :=
  let mean_x := Binary64.sample_average x size
  let mean_y := Binary64.sample_average y size
  let sum := (List.range size.toNat).foldl
    (fun sum i => add64 sum
      (mul64 (sub64 (ofInt64 (x.getD i 0)) mean_x) (sub64 (ofInt64 (y.getD i 0)) mean_y)))
    (fin 0)
  div64 sum (ofInt64 size)

/-- The loop of `linear_regression` (regression.c, lines 64-71) in binary64. -/
def regression_sums (x y : List (Double ℚ)) (size : Int) : Sums ℚ :=
  (List.range size.toNat).foldl
    (fun s i =>
      { sum_x := add64 s.sum_x (x.getD i (fin 0))
        sum_y := add64 s.sum_y (y.getD i (fin 0))
        sum_x2 := add64 s.sum_x2 (mul64 (x.getD i (fin 0)) (x.getD i (fin 0)))
        sum_xy := add64 s.sum_xy (mul64 (x.getD i (fin 0)) (y.getD i (fin 0))) })
    { sum_x := fin 0, sum_y := fin 0, sum_x2 := fin 0, sum_xy := fin 0 }

/-- The function `linear_regression` (regression.c, lines 63-79) in binary64. -/
def linear_regression (x y : List (Double ℚ)) (size : Int) : LinearModel ℚ :=
  let s := Binary64.regression_sums x y size
  let m := div64 (sub64 (mul64 (ofInt64 size) s.sum_xy) (mul64 s.sum_x s.sum_y))
    (sub64 (mul64 (ofInt64 size) s.sum_x2) (mul64 s.sum_x s.sum_x))
  let b := div64 (sub64 s.sum_y (mul64 m s.sum_x)) (ofInt64 size)
  { m := m, b := b }

end Binary64

/-! ## Arithmetic of `Double` on finite values -/

namespace Double

variable {K : Type} [LinearOrderedField K]

theorem fin_add_fin (a b : K) : (fin a + fin b : Double K) = fin (a + b) := rfl

theorem fin_sub_fin (a b : K) : (fin a - fin b : Double K) = fin (a - b) := by
  show add (fin a) (neg (fin b)) = fin (a - b)
  simp [add, neg, sub_eq_add_neg]

theorem fin_mul_fin (a b : K) : (fin a * fin b : Double K) = fin (a * b) := rfl

theorem fin_div_fin (a b : K) (hb : b ≠ 0) : (fin a / fin b : Double K) = fin (a / b) := by
  show div (fin a) (fin b) = fin (a / b)
  simp [div, hb]

theorem zero_div_zero : (fin 0 / fin 0 : Double K) = nan := by
  show div (fin 0) (fin 0) = nan
  simp [div]

theorem nan_mul (a : Double K) : (nan * a : Double K) = nan := by
  show mul nan a = nan
  cases a <;> rfl

theorem sub_nan (a : Double K) : (a - nan : Double K) = nan := by
  show add a (neg nan) = nan
  cases a <;> rfl

theorem nan_div (a : Double K) : (nan / a : Double K) = nan := by
  show div nan a = nan
  cases a <;> rfl

theorem sqrt_nan (sq : K → K) : Double.sqrt sq (nan : Double K) = nan := rfl

theorem ofInt_natCast (n : Nat) : (ofInt ((n : Nat) : Int) : Double K) = fin (n : K) := by
  simp [ofInt]

end Double

/-! ## The loops compute the sums -/

section Loops

variable {K : Type} [LinearOrderedField K]

/-- A loop that adds the finite value `g i` at step `i` ends with the finite
value `Σ g i`. -/
theorem foldl_range_fin (g : Nat → K) (n : Nat) :
    (List.range n).foldl (fun s i => s + fin (g i)) (fin 0)
      = fin (∑ i in Finset.range n, g i) := by
  induction n with
  | zero => simp
  | succ k ih =>
    rw [List.range_succ, List.foldl_append, ih, Finset.sum_range_succ]
    rfl

theorem getD_map_fin (xs : List K) (i : Nat) :
    (xs.map fin).getD i (fin 0) = fin (xs.getD i 0) := by
  rw [List.getD_map]

/-- The loop of `linear_regression` on finite data accumulates `Σx`, `Σy`,
`Σx²` and `Σxy`. -/
theorem regression_sums_fin (xs ys : List K) (n : Nat) :
    regression_sums (xs.map fin) (ys.map fin) (n : Int)
      = { sum_x := fin (sumX xs n), sum_y := fin (sumX ys n),
          sum_x2 := fin (sumXY xs xs n), sum_xy := fin (sumXY xs ys n) } := by
  unfold regression_sums
  rw [Int.toNat_natCast]
  induction n with
  | zero => simp [sumX, sumXY]
  | succ k ih =>
    rw [List.range_succ, List.foldl_append, ih]
    simp only [List.foldl_cons, List.foldl_nil, getD_map_fin, fin_mul_fin, fin_add_fin,
      sumX, sumXY, Finset.sum_range_succ]

end Loops

/-! ## The slope denominator -/

section Denominator

variable {K : Type} [LinearOrderedField K]

/-- The identity `n·(n·Σx² - (Σx)²) = Σ (n·xᵢ - Σx)²`. -/
theorem slopeDen_mul (xs : List K) (n : Nat) :
    (n : K) * slopeDen xs n
      = ∑ i in Finset.range n, ((n : K) * xs.getD i 0 - sumX xs n) ^ 2 := by
  have hpt : ∀ i, ((n : K) * xs.getD i 0 - sumX xs n) ^ 2
      = (n : K) ^ 2 * (xs.getD i 0 * xs.getD i 0)
        - 2 * (n : K) * sumX xs n * xs.getD i 0 + sumX xs n ^ 2 := by
    intro i; ring
  simp only [hpt, Finset.sum_add_distrib, Finset.sum_sub_distrib, ← Finset.mul_sum,
    Finset.sum_const, Finset.card_range, nsmul_eq_mul]
  simp only [slopeDen, sumXY, sumX]
  ring

/-- The denominator is never negative. -/
theorem slopeDen_nonneg (xs : List K) (n : Nat) : 0 ≤ slopeDen xs n := by
  rcases Nat.eq_zero_or_pos n with h0 | hpos
  · subst h0; simp [slopeDen, sumX, sumXY]
  · have hn : (0 : K) < n := by exact_mod_cast hpos
    have h := slopeDen_mul xs n
    have hs : 0 ≤ ∑ i in Finset.range n, ((n : K) * xs.getD i 0 - sumX xs n) ^ 2 :=
      Finset.sum_nonneg (fun i _ => sq_nonneg _)
    rw [← h] at hs
    exact nonneg_of_mul_nonneg_right hs hn

/-- The denominator is positive when the first `n` values are not all equal. -/
theorem slopeDen_pos (xs : List K) (n : Nat) (hvar : ¬ AllEqual xs n) :
    0 < slopeDen xs n := by
  have hex : ∃ i, i < n ∧ ∃ j, j < n ∧ xs.getD i 0 ≠ xs.getD j 0 := by
    by_contra hcon
    apply hvar
    intro i hi j hj
    by_contra hne
    exact hcon ⟨i, hi, j, hj, hne⟩
  obtain ⟨i, hi, j, hj, hne⟩ := hex
  have hn : (0 : K) < n := by exact_mod_cast (Nat.lt_of_le_of_lt (Nat.zero_le i) hi)
  have hk : ∃ k ∈ Finset.range n, 0 < ((n : K) * xs.getD k 0 - sumX xs n) ^ 2 := by
    by_cases hi0 : (n : K) * xs.getD i 0 - sumX xs n = 0
    · refine ⟨j, Finset.mem_range.mpr hj, ?_⟩
      have hj0 : (n : K) * xs.getD j 0 - sumX xs n ≠ 0 := by
        intro hj0
        apply hne
        have h2 : (n : K) * xs.getD i 0 = (n : K) * xs.getD j 0 := by
          linear_combination hi0 - hj0
        exact mul_left_cancel₀ (ne_of_gt hn) h2
      exact lt_of_le_of_ne (sq_nonneg _) (Ne.symm (pow_ne_zero 2 hj0))
    · exact ⟨i, Finset.mem_range.mpr hi,
        lt_of_le_of_ne (sq_nonneg _) (Ne.symm (pow_ne_zero 2 hi0))⟩
  have hs : 0 < ∑ k in Finset.range n, ((n : K) * xs.getD k 0 - sumX xs n) ^ 2 :=
    Finset.sum_pos' (fun k _ => sq_nonneg _) hk
  rw [← slopeDen_mul] at hs
  rcases lt_or_ge 0 (slopeDen xs n) with h1 | h1
  · exact h1
  · exact absurd hs (not_lt.mpr (mul_nonpos_of_nonneg_of_nonpos (le_of_lt hn) h1))

/-- When the first `n ≥ 1` values are all equal, numerator and denominator of
the slope are both zero. -/
theorem slope_zero_of_allEqual (xs ys : List K) (n : Nat) (hn : 1 ≤ n)
    (hc : AllEqual xs n) : slopeDen xs n = 0 ∧ slopeNum xs ys n = 0 := by
  have h0 : 0 < n := hn
  have hx : ∀ i ∈ Finset.range n, xs.getD i 0 = xs.getD 0 0 :=
    fun i hi => hc i (Finset.mem_range.mp hi) 0 h0
  have hSx : sumX xs n = (n : K) * xs.getD 0 0 := by
    unfold sumX
    rw [Finset.sum_congr rfl hx]
    simp
  have hSxx : sumXY xs xs n = (n : K) * (xs.getD 0 0 * xs.getD 0 0) := by
    unfold sumXY
    rw [Finset.sum_congr rfl (fun i hi => by rw [hx i hi])]
    simp
  have hSxy : sumXY xs ys n = xs.getD 0 0 * sumX ys n := by
    unfold sumXY sumX
    rw [Finset.sum_congr rfl (fun i hi => by rw [hx i hi]), Finset.mul_sum]
  constructor
  · rw [slopeDen, hSx, hSxx]; ring
  · rw [slopeNum, hSx, hSxy]; ring

end Denominator

/-! ## `linear_regression` -/

section Regression

variable {K : Type} [LinearOrderedField K]

/-- The model returned on finite data, in terms of the four sums. -/
theorem linear_regression_fin (xs ys : List K) (n : Nat) :
    linear_regression (xs.map fin) (ys.map fin) (n : Int)
      = { m := fin (slopeNum xs ys n) / fin (slopeDen xs n)
          b := (fin (sumX ys n) - fin (slopeNum xs ys n) / fin (slopeDen xs n)
                  * fin (sumX xs n)) / fin (n : K) } := by
  unfold linear_regression
  simp only [regression_sums_fin, ofInt_natCast, fin_mul_fin, fin_sub_fin]
  rfl

/-- The model returned on finite data when the denominator of the slope is not
zero: both divisions are finite. -/
theorem linear_regression_of_den_ne (xs ys : List K) (n : Nat) (hn : 1 ≤ n)
    (hD : slopeDen xs n ≠ 0) :
    linear_regression (xs.map fin) (ys.map fin) (n : Int)
      = { m := fin (slopeNum xs ys n / slopeDen xs n)
          b := fin ((sumX ys n - slopeNum xs ys n / slopeDen xs n * sumX xs n) / n) } := by
  have hn0 : (n : K) ≠ 0 := by
    have : 0 < n := hn
    exact_mod_cast (Nat.pos_iff_ne_zero.mp this)
  rw [linear_regression_fin, fin_div_fin _ _ hD, fin_mul_fin, fin_sub_fin,
    fin_div_fin _ _ hn0]

/-- The model returned when the first `n ≥ 1` values of `x` are all equal: the
slope is `0 / 0`, and NaN propagates to the intercept. -/
theorem linear_regression_of_allEqual (xs ys : List K) (n : Nat) (hn : 1 ≤ n)
    (hc : AllEqual xs n) :
    linear_regression (xs.map fin) (ys.map fin) (n : Int) = { m := nan, b := nan } := by
  obtain ⟨hD, hN⟩ := slope_zero_of_allEqual xs ys n hn hc
  rw [linear_regression_fin, hD, hN, zero_div_zero, nan_mul, sub_nan, nan_div]

/-- The residual sum of squares as a polynomial in the sums of the data. -/
theorem rss_expand (xs ys : List K) (n : Nat) (m b : K) :
    rss xs ys n m b
      = sumXY ys ys n - 2 * m * sumXY xs ys n - 2 * b * sumX ys n
        + m ^ 2 * sumXY xs xs n + 2 * m * b * sumX xs n + (n : K) * b ^ 2 := by
  have hpt : ∀ i, (ys.getD i 0 - (m * xs.getD i 0 + b)) ^ 2
      = ys.getD i 0 * ys.getD i 0 - 2 * m * (xs.getD i 0 * ys.getD i 0)
        - 2 * b * ys.getD i 0 + m ^ 2 * (xs.getD i 0 * xs.getD i 0)
        + 2 * m * b * xs.getD i 0 + b ^ 2 := by
    intro i; ring
  simp only [rss, hpt, Finset.sum_add_distrib, Finset.sum_sub_distrib, ← Finset.mul_sum,
    Finset.sum_const, Finset.card_range, nsmul_eq_mul]
  simp only [sumXY, sumX]

/-- A solution `(m, b)` of the normal equations minimises the quadratic
`Syy - 2·m·Sxy - 2·b·Sy + m²·Sxx + 2·m·b·Sx + n·b²`. -/
theorem normal_equations_minimise (n Sx Sy Sxx Sxy Syy m b m' b' : K) (hn : 0 < n)
    (hD : 0 ≤ n * Sxx - Sx * Sx) (hm : m * (n * Sxx - Sx * Sx) = n * Sxy - Sx * Sy)
    (hb : n * b = Sy - m * Sx) :
    Syy - 2 * m * Sxy - 2 * b * Sy + m ^ 2 * Sxx + 2 * m * b * Sx + n * b ^ 2
      ≤ Syy - 2 * m' * Sxy - 2 * b' * Sy + m' ^ 2 * Sxx + 2 * m' * b' * Sx + n * b' ^ 2 := by
  have key : n * ((Syy - 2 * m' * Sxy - 2 * b' * Sy + m' ^ 2 * Sxx + 2 * m' * b' * Sx
        + n * b' ^ 2)
      - (Syy - 2 * m * Sxy - 2 * b * Sy + m ^ 2 * Sxx + 2 * m * b * Sx + n * b ^ 2))
      = (n * (b' - b) + Sx * (m' - m)) ^ 2 + (n * Sxx - Sx * Sx) * (m' - m) ^ 2 := by
    linear_combination (2 * (m' - m)) * hm + (2 * (m' - m) * Sx + 2 * n * (b' - b)) * hb
  have hge : 0 ≤ (n * (b' - b) + Sx * (m' - m)) ^ 2
      + (n * Sxx - Sx * Sx) * (m' - m) ^ 2 :=
    add_nonneg (sq_nonneg _) (mul_nonneg hD (sq_nonneg _))
  rw [← key] at hge
  exact sub_nonneg.mp (nonneg_of_mul_nonneg_right hge hn)

end Regression

/-! ## The claims on `linear_regression` -/

section RegressionClaims

variable {K : Type} [LinearOrderedField K]

/-- C1: least-squares optimality.  For sequences `xs`, `ys` of the same positive
length `n` whose `x` values are not all equal, `linear_regression` returns a
finite model `(m, b)`, and its residual sum of squares is at most that of every
candidate pair `(m', b')`. -/
theorem linear_regression_least_squares (xs ys : List K) (n : Nat) (hn : 0 < n)
    (hx : xs.length = n) (hy : ys.length = n) (hvar : ¬ AllEqual xs n) :
    ∃ m b : K,
      linear_regression (xs.map fin) (ys.map fin) (n : Int) = { m := fin m, b := fin b }
        ∧ ∀ m' b' : K, rss xs ys n m b ≤ rss xs ys n m' b' := by
  have _hlen : xs.length = ys.length := hx.trans hy.symm
  have hD : 0 < slopeDen xs n := slopeDen_pos xs n hvar
  have hnK : (0 : K) < n := by exact_mod_cast hn
  refine ⟨slopeNum xs ys n / slopeDen xs n,
    (sumX ys n - slopeNum xs ys n / slopeDen xs n * sumX xs n) / n,
    linear_regression_of_den_ne xs ys n hn (ne_of_gt hD), ?_⟩
  intro m' b'
  rw [rss_expand, rss_expand]
  apply normal_equations_minimise (n : K) (sumX xs n) (sumX ys n) (sumXY xs xs n)
    (sumXY xs ys n) (sumXY ys ys n) _ _ m' b' hnK
  · exact le_of_lt hD
  · have h := div_mul_cancel₀ (slopeNum xs ys n) (ne_of_gt hD)
    simpa [slopeNum, slopeDen] using h
  · exact mul_div_cancel₀ _ (ne_of_gt hnK)

/-- C2 (as amended): in exact arithmetic, for `n ≥ 1` not exceeding the
lengths, `linear_regression` returns `m = (n·Σxy - Σx·Σy) / (n·Σx² - (Σx)²)` and
`b = (Σy - m·Σx) / n`, the sums being the exact sums accumulated by the loop; a
division by zero follows the rules of `double`, and when the denominator of the
slope is not zero both are the exact quotients. -/
theorem linear_regression_formula (xs ys : List K) (n : Nat) (hn : 1 ≤ n)
    (hx : n ≤ xs.length) (hy : n ≤ ys.length) :
    linear_regression (xs.map fin) (ys.map fin) (n : Int)
        = { m := fin ((n : K) * sumXY xs ys n - sumX xs n * sumX ys n)
                  / fin ((n : K) * sumXY xs xs n - sumX xs n * sumX xs n)
            b := (fin (sumX ys n)
                    - fin ((n : K) * sumXY xs ys n - sumX xs n * sumX ys n)
                        / fin ((n : K) * sumXY xs xs n - sumX xs n * sumX xs n)
                      * fin (sumX xs n)) / fin (n : K) }
      ∧ ((n : K) * sumXY xs xs n - sumX xs n * sumX xs n ≠ 0 →
          linear_regression (xs.map fin) (ys.map fin) (n : Int)
            = { m := fin (((n : K) * sumXY xs ys n - sumX xs n * sumX ys n)
                      / ((n : K) * sumXY xs xs n - sumX xs n * sumX xs n))
                b := fin ((sumX ys n
                      - ((n : K) * sumXY xs ys n - sumX xs n * sumX ys n)
                          / ((n : K) * sumXY xs xs n - sumX xs n * sumX xs n)
                        * sumX xs n) / n) }) := by
  have _hx := hx
  have _hy := hy
  exact ⟨linear_regression_fin xs ys n, fun hD => linear_regression_of_den_ne xs ys n hn hD⟩

/-- An exact linear relationship `yᵢ = a·xᵢ + c` on non-constant `x` is
recovered exactly. -/
theorem linear_regression_of_linear (xs ys : List K) (n : Nat) (hn : 1 ≤ n)
    (hvar : ¬ AllEqual xs n) (a c : K)
    (hlin : ∀ i < n, ys.getD i 0 = a * xs.getD i 0 + c) :
    linear_regression (xs.map fin) (ys.map fin) (n : Int) = { m := fin a, b := fin c } := by
  have hD : slopeDen xs n ≠ 0 := ne_of_gt (slopeDen_pos xs n hvar)
  have hnK : (n : K) ≠ 0 := by
    have : 0 < n := hn
    exact_mod_cast (Nat.pos_iff_ne_zero.mp this)
  have hSy : sumX ys n = a * sumX xs n + (n : K) * c := by
    unfold sumX
    rw [Finset.sum_congr rfl (fun i hi => hlin i (Finset.mem_range.mp hi)),
      Finset.sum_add_distrib, ← Finset.mul_sum]
    simp
  have hSxy : sumXY xs ys n = a * sumXY xs xs n + c * sumX xs n := by
    unfold sumXY sumX
    rw [Finset.sum_congr rfl (fun i hi => by rw [hlin i (Finset.mem_range.mp hi)]),
      Finset.mul_sum, Finset.mul_sum, ← Finset.sum_add_distrib]
    exact Finset.sum_congr rfl (fun i _ => by ring)
  have hN : slopeNum xs ys n = a * slopeDen xs n := by
    rw [slopeNum, slopeDen, hSy, hSxy]; ring
  have hm : slopeNum xs ys n / slopeDen xs n = a := by
    rw [hN, mul_div_assoc, div_self hD, mul_one]
  rw [linear_regression_of_den_ne xs ys n hn hD, hm, hSy]
  have hb : (a * sumX xs n + (n : K) * c - a * sumX xs n) / (n : K) = c := by
    field_simp
  rw [hb]

/-- C3: an exact linear relationship recovers exact parameters.  If `xs` has
length `n ≥ 2`, its values are not all equal and `yᵢ = a·xᵢ + c` for every `i`,
then `linear_regression` returns `(m = a, b = c)`; in particular on
`{1,2,3,4,5}`, `{2,4,6,8,10}` it returns slope `2` and intercept `0`. -/
theorem linear_regression_exact (xs ys : List K) (n : Nat) (hn : 2 ≤ n)
    (hx : xs.length = n) (hy : ys.length = n) (hvar : ¬ AllEqual xs n) (a c : K)
    (hlin : ∀ i < n, ys.getD i 0 = a * xs.getD i 0 + c) :
    linear_regression (xs.map fin) (ys.map fin) (n : Int) = { m := fin a, b := fin c }
      ∧ linear_regression ([fin 1, fin 2, fin 3, fin 4, fin 5] : List (Double K))
          [fin 2, fin 4, fin 6, fin 8, fin 10] 5 = { m := fin 2, b := fin 0 } := by
  have _hlen : xs.length = ys.length := hx.trans hy.symm
  refine ⟨linear_regression_of_linear xs ys n (by omega) hvar a c hlin, ?_⟩
  have hv : ¬ AllEqual ([1, 2, 3, 4, 5] : List K) 5 := by
    intro h
    have h01 := h 0 (by norm_num) 1 (by norm_num)
    norm_num at h01
  have hl : ∀ i < 5, ([2, 4, 6, 8, 10] : List K).getD i 0
      = 2 * ([1, 2, 3, 4, 5] : List K).getD i 0 + 0 := by
    intro i hi
    interval_cases i <;> norm_num
  exact linear_regression_of_linear ([1, 2, 3, 4, 5] : List K) [2, 4, 6, 8, 10] 5
    (by norm_num) hv 2 0 hl

end RegressionClaims

/-! ## The descriptive statistics on finite data -/

section Statistics

variable (K : Type) [LinearOrderedField K]

/-- The sum computed by the loop of `sample_average` is the sum of the first
`n` elements of the array. -/
theorem intSum_eq_take (arr : List Int) (n : Nat) :
    intSum K arr n = (((arr.take n).sum : Int) : K) := by
  unfold intSum
  induction arr generalizing n with
  | nil => simp
  | cons a as ih =>
    cases n with
    | zero => simp
    | succ k =>
      rw [Finset.sum_range_succ']
      simp only [List.getD_cons_succ, List.getD_cons_zero, List.take_succ_cons, List.sum_cons,
        Int.cast_add]
      rw [ih k, add_comm]

theorem natCast_ne_zero_of_pos (n : Nat) (hn : 1 ≤ n) : (n : K) ≠ 0 := by
  have : 0 < n := hn
  exact_mod_cast (Nat.pos_iff_ne_zero.mp this)

/-- The value of `sample_average` for a size `n ≥ 1`. -/
theorem sample_average_fin (arr : List Int) (n : Nat) (hn : 1 ≤ n) :
    sample_average K arr (n : Int) = fin (intSum K arr n / n) := by
  simp only [sample_average, Int.toNat_natCast, ofInt, Int.cast_natCast]
  rw [foldl_range_fin (fun i => ((arr.getD i 0 : Int) : K)),
    fin_div_fin _ _ (natCast_ne_zero_of_pos K n hn)]
  rfl

/-- The value of `calculate_variance` for a size `n ≥ 1`. -/
theorem calculate_variance_fin (arr : List Int) (n : Nat) (hn : 1 ≤ n) :
    calculate_variance K arr (n : Int)
      = fin ((∑ i in Finset.range n,
          (((arr.getD i 0 : Int) : K) - intSum K arr n / n) ^ 2) / n) := by
  simp only [calculate_variance, sample_average_fin K arr n hn, Int.toNat_natCast, ofInt,
    Int.cast_natCast, fin_sub_fin, fin_mul_fin]
  rw [foldl_range_fin (fun i => (((arr.getD i 0 : Int) : K) - intSum K arr n / n)
      * (((arr.getD i 0 : Int) : K) - intSum K arr n / n)),
    fin_div_fin _ _ (natCast_ne_zero_of_pos K n hn)]
  simp only [sq]

/-- The value of `covariance` for a size `n ≥ 1`. -/
theorem covariance_fin (x y : List Int) (n : Nat) (hn : 1 ≤ n) :
    covariance K x y (n : Int)
      = fin ((∑ i in Finset.range n,
          (((x.getD i 0 : Int) : K) - intSum K x n / n)
            * (((y.getD i 0 : Int) : K) - intSum K y n / n)) / n) := by
  simp only [covariance, sample_average_fin K _ n hn, Int.toNat_natCast, ofInt,
    Int.cast_natCast, fin_sub_fin, fin_mul_fin]
  rw [foldl_range_fin (fun i => (((x.getD i 0 : Int) : K) - intSum K x n / n)
      * (((y.getD i 0 : Int) : K) - intSum K y n / n)),
    fin_div_fin _ _ (natCast_ne_zero_of_pos K n hn)]

/-- The mean of the demonstration array `{1,2,3,4,5}`. -/
theorem sample_average_demo : sample_average K [1, 2, 3, 4, 5] 5 = fin 3 := by
  have h := sample_average_fin K [1, 2, 3, 4, 5] 5 (by norm_num)
  rw [intSum_eq_take] at h
  norm_num at h
  exact h

/-- The mean of `{2,4,6,8,10}`. -/
theorem sample_average_demo_y : sample_average K [2, 4, 6, 8, 10] 5 = fin 6 := by
  have h := sample_average_fin K [2, 4, 6, 8, 10] 5 (by norm_num)
  rw [intSum_eq_take] at h
  norm_num at h
  exact h

/-- The variance of the demonstration array `{1,2,3,4,5}`. -/
theorem calculate_variance_demo : calculate_variance K [1, 2, 3, 4, 5] 5 = fin 2 := by
  have h := calculate_variance_fin K [1, 2, 3, 4, 5] 5 (by norm_num)
  simp only [intSum, Finset.sum_range_succ, Finset.sum_range_zero] at h
  norm_num at h
  exact h

/-- With size `0` the loop of `sample_average` does not run and the division
`0.0 / 0` yields NaN. -/
theorem sample_average_zero (arr : List Int) : sample_average K arr 0 = nan := by
  simp only [sample_average, Int.toNat_zero, List.range_zero, List.foldl_nil, ofInt,
    Int.cast_zero, zero_div_zero]

/-- With size `0` the loop of `calculate_variance` does not run and the division
`0.0 / 0` yields NaN. -/
theorem calculate_variance_zero (arr : List Int) : calculate_variance K arr 0 = nan := by
  simp only [calculate_variance, Int.toNat_zero, List.range_zero, List.foldl_nil, ofInt,
    Int.cast_zero, zero_div_zero]

/-- With size `0`, `standard_deviation` is `sqrt` of NaN, which is NaN. -/
theorem standard_deviation_zero (sq : K → K) (arr : List Int) :
    standard_deviation sq arr 0 = nan := by
  rw [standard_deviation, sample_average_zero, sqrt_nan]

end Statistics

/-! ## The claims on the descriptive statistics -/

section StatisticsClaims

variable {K : Type} [LinearOrderedField K]

/-- C5: for `1 ≤ n ≤ length arr`, `calculate_variance arr n` is the population
variance `(1/n)·Σ (xᵢ - mean)²` (division by `n`, not by `n - 1`), where `mean`
is the value of `sample_average arr n`; in particular the variance of
`{1,2,3,4,5}` is `2`. -/
theorem calculate_variance_spec (arr : List Int) (n : Nat) (hn : 1 ≤ n)
    (hlen : n ≤ arr.length) :
    ∃ mean : K, sample_average K arr (n : Int) = fin mean
      ∧ calculate_variance K arr (n : Int)
          = fin (1 / (n : K) * ∑ i in Finset.range n, (((arr.getD i 0 : Int) : K) - mean) ^ 2)
      ∧ calculate_variance K [1, 2, 3, 4, 5] 5 = fin 2 := by
  have _hlen := hlen
  refine ⟨intSum K arr n / n, sample_average_fin K arr n hn, ?_, ?_⟩
  · rw [calculate_variance_fin K arr n hn, one_div, div_eq_inv_mul]
  · exact calculate_variance_demo K

/-- C7: for `n ≥ 1`, `standard_deviation arr n` is `sqrt` of
`sample_average arr n`, the square root of the mean; it is not the square root
of `calculate_variance arr n`: on `{1,2,3,4,5}` the two differ. -/
theorem standard_deviation_spec (sq : K → K) (hsq : ∀ a, 0 ≤ a → sq a * sq a = a)
    (arr : List Int) (n : Nat) (hn : 1 ≤ n) :
    standard_deviation sq arr (n : Int) = Double.sqrt sq (sample_average K arr (n : Int))
      ∧ standard_deviation sq arr (n : Int)
          = (if (((arr.take n).sum : Int) : K) / n < 0 then nan
              else fin (sq ((((arr.take n).sum : Int) : K) / n)))
      ∧ standard_deviation sq [1, 2, 3, 4, 5] 5
          ≠ Double.sqrt sq (calculate_variance K [1, 2, 3, 4, 5] 5) := by
  refine ⟨rfl, ?_, ?_⟩
  · rw [standard_deviation, sample_average_fin K arr n hn, intSum_eq_take]
    rfl
  · rw [standard_deviation, sample_average_demo K, calculate_variance_demo K]
    have h3 : ¬ ((3 : K) < 0) := by norm_num
    have h2 : ¬ ((2 : K) < 0) := by norm_num
    simp only [Double.sqrt, h3, h2, if_false]
    intro heq
    have heq2 : sq 3 = sq 2 := by injection heq
    have e3 := hsq 3 (by norm_num)
    have e2 := hsq 2 (by norm_num)
    rw [heq2, e2] at e3
    norm_num at e3

/-- C8: for `n ≥ 1`, `correlation x y n` is `covariance x y n` divided by the
product of `standard_deviation x n` and `standard_deviation y n`, the
library's own `standard_deviation` (the square root of the mean). -/
theorem correlation_spec (sq : K → K) (x y : List Int) (n : Nat) (hn : 1 ≤ n) :
    correlation sq x y (n : Int)
        = covariance K x y (n : Int)
            / (standard_deviation sq x (n : Int) * standard_deviation sq y (n : Int))
      ∧ correlation sq x y (n : Int)
        = covariance K x y (n : Int)
            / (Double.sqrt sq (fin ((((x.take n).sum : Int) : K) / n))
                * Double.sqrt sq (fin ((((y.take n).sum : Int) : K) / n))) := by
  refine ⟨rfl, ?_⟩
  simp only [correlation, standard_deviation, sample_average_fin K _ n hn, intSum_eq_take]

end StatisticsClaims

/-! ## The degenerate inputs -/

section Degenerate

variable {K : Type} [LinearOrderedField K]

/-- C10 (as amended): called with size `0`, `sample_average`,
`calculate_variance` and `standard_deviation` signal no error: each performs the
division by the size and returns NaN. -/
theorem empty_input_returns_nan (sq : K → K) (arr : List Int) :
    sample_average K arr 0 = nan ∧ calculate_variance K arr 0 = nan
      ∧ standard_deviation sq arr 0 = nan :=
  ⟨sample_average_zero K arr, calculate_variance_zero K arr, standard_deviation_zero K sq arr⟩

end Degenerate

/-! ## Moments of a sequence and the sums of the regression -/

section Moments

variable {K : Type} [LinearOrderedField K]

theorem getD_toField (arr : List Int) (i : Nat) :
    (toField K arr).getD i 0 = ((arr.getD i 0 : Int) : K) := by
  unfold toField
  have h := List.getD_map (fun z : Int => (z : K)) (l := arr) (d := 0) (n := i)
  simp only [Int.cast_zero] at h
  exact h

theorem intSum_eq_sumX (arr : List Int) (n : Nat) :
    intSum K arr n = sumX (toField K arr) n := by
  unfold intSum sumX
  exact Finset.sum_congr rfl (fun i _ => (getD_toField arr i).symm)

theorem allEqual_toField (arr : List Int) (n : Nat) :
    AllEqual (toField K arr) n ↔ AllEqualInt arr n := by
  unfold AllEqual AllEqualInt
  simp only [getD_toField, Int.cast_inj]

/-- The sum of the products of deviations is the numerator of the slope divided
by `n`. -/
theorem sum_dev_mul (xs ys : List K) (n : Nat) (hn : 1 ≤ n) :
    ∑ i in Finset.range n, (xs.getD i 0 - sumX xs n / n) * (ys.getD i 0 - sumX ys n / n)
      = slopeNum xs ys n / n := by
  have hn0 : (n : K) ≠ 0 := by
    have : 0 < n := hn
    exact_mod_cast (Nat.pos_iff_ne_zero.mp this)
  have hpt : ∀ i, (xs.getD i 0 - sumX xs n / n) * (ys.getD i 0 - sumX ys n / n)
      = xs.getD i 0 * ys.getD i 0 - sumX ys n / n * xs.getD i 0
        - sumX xs n / n * ys.getD i 0 + sumX xs n / n * (sumX ys n / n) := by
    intro i; ring
  simp only [hpt, Finset.sum_add_distrib, Finset.sum_sub_distrib, ← Finset.mul_sum,
    Finset.sum_const, Finset.card_range, nsmul_eq_mul]
  simp only [slopeNum, sumXY, sumX]
  field_simp
  ring

/-- The population covariance is the numerator of the slope divided by `n²`. -/
theorem popCov_eq (xs ys : List K) (n : Nat) (hn : 1 ≤ n) :
    popCov xs ys n = slopeNum xs ys n / (n : K) ^ 2 := by
  have hn0 : (n : K) ≠ 0 := by
    have : 0 < n := hn
    exact_mod_cast (Nat.pos_iff_ne_zero.mp this)
  rw [popCov, sum_dev_mul xs ys n hn, div_mul_div_comm, one_mul, sq]

/-- The population variance is the denominator of the slope divided by `n²`. -/
theorem popVar_eq (xs : List K) (n : Nat) (hn : 1 ≤ n) :
    popVar xs n = slopeDen xs n / (n : K) ^ 2 := by
  have hn0 : (n : K) ≠ 0 := by
    have : 0 < n := hn
    exact_mod_cast (Nat.pos_iff_ne_zero.mp this)
  have hsq : ∀ i, (xs.getD i 0 - sumX xs n / n) ^ 2
      = (xs.getD i 0 - sumX xs n / n) * (xs.getD i 0 - sumX xs n / n) := by
    intro i; ring
  simp only [popVar, hsq]
  rw [sum_dev_mul xs xs n hn]
  have hND : slopeNum xs xs n = slopeDen xs n := rfl
  rw [hND, div_mul_div_comm, one_mul, sq]

/-- The identity `n·Σx² - (Σx)² = n²·variance`. -/
theorem slopeDen_eq_popVar (xs : List K) (n : Nat) (hn : 1 ≤ n) :
    slopeDen xs n = (n : K) ^ 2 * popVar xs n := by
  have hn0 : (n : K) ≠ 0 := by
    have : 0 < n := hn
    exact_mod_cast (Nat.pos_iff_ne_zero.mp this)
  rw [popVar_eq xs n hn]
  field_simp

/-- The function `calculate_variance` computes the population variance. -/
theorem calculate_variance_eq_popVar (arr : List Int) (n : Nat) (hn : 1 ≤ n) :
    calculate_variance K arr (n : Int) = fin (popVar (toField K arr) n) := by
  rw [calculate_variance_fin K arr n hn, popVar, intSum_eq_sumX]
  simp only [getD_toField, one_div, div_eq_inv_mul, mul_one]

/-- The function `covariance` computes the population covariance. -/
theorem covariance_eq_popCov (x y : List Int) (n : Nat) (hn : 1 ≤ n) :
    covariance K x y (n : Int) = fin (popCov (toField K x) (toField K y) n) := by
  rw [covariance_fin K x y n hn, popCov, intSum_eq_sumX, intSum_eq_sumX]
  simp only [getD_toField, one_div, div_eq_inv_mul, mul_one]

/-- The function `sample_average` computes `(Σ xᵢ) / n`. -/
theorem sample_average_eq_sumX (arr : List Int) (n : Nat) (hn : 1 ≤ n) :
    sample_average K arr (n : Int) = fin (sumX (toField K arr) n / n) := by
  rw [sample_average_fin K arr n hn, intSum_eq_sumX]

/-- The denominator computed by `linear_regression` on finite data. -/
theorem regression_den_fin (xs ys : List K) (n : Nat) :
    ofInt (n : Int) * (regression_sums (xs.map fin) (ys.map fin) (n : Int)).sum_x2
        - (regression_sums (xs.map fin) (ys.map fin) (n : Int)).sum_x
          * (regression_sums (xs.map fin) (ys.map fin) (n : Int)).sum_x
      = fin (slopeDen xs n) := by
  simp only [regression_sums_fin, ofInt_natCast, fin_mul_fin, fin_sub_fin]
  rfl

/-- The numerator computed by `linear_regression` on finite data. -/
theorem regression_num_fin (xs ys : List K) (n : Nat) :
    ofInt (n : Int) * (regression_sums (xs.map fin) (ys.map fin) (n : Int)).sum_xy
        - (regression_sums (xs.map fin) (ys.map fin) (n : Int)).sum_x
          * (regression_sums (xs.map fin) (ys.map fin) (n : Int)).sum_y
      = fin (slopeNum xs ys n) := by
  simp only [regression_sums_fin, ofInt_natCast, fin_mul_fin, fin_sub_fin]
  rfl

end Moments

/-! ## Relations between the regression and the descriptive statistics -/

section Relations

variable {K : Type} [LinearOrderedField K]

theorem map_ofInt (arr : List Int) :
    arr.map (ofInt : Int → Double K) = (toField K arr).map fin := by
  unfold toField
  rw [List.map_map]
  rfl

/-- Multiplication of doubles is commutative. -/
theorem double_mul_comm (a b : Double K) : a * b = b * a := by
  show Double.mul a b = Double.mul b a
  cases a <;> cases b <;> simp only [Double.mul, mul_comm]

/-- The population covariance is symmetric. -/
theorem popCov_comm (xs ys : List K) (n : Nat) : popCov xs ys n = popCov ys xs n := by
  unfold popCov
  congr 1
  exact Finset.sum_congr rfl (fun i _ => by ring)

end Relations

section RelationClaims

variable {K : Type} [LinearOrderedField K]

/-- C12: when the first `n ≥ 1` values of `x` are all equal, the denominator
`n·Σx² - (Σx)²` computed by `linear_regression` is exactly `0`, so the slope is
the result of a division by zero and is not a finite number. -/
theorem regression_denominator_zero (xs ys : List K) (n : Nat) (hn : 1 ≤ n)
    (hc : AllEqual xs n) :
    (n : K) * sumXY xs xs n - sumX xs n * sumX xs n = 0
      ∧ ofInt (n : Int) * (regression_sums (xs.map fin) (ys.map fin) (n : Int)).sum_x2
          - (regression_sums (xs.map fin) (ys.map fin) (n : Int)).sum_x
            * (regression_sums (xs.map fin) (ys.map fin) (n : Int)).sum_x
          = fin 0
      ∧ (linear_regression (xs.map fin) (ys.map fin) (n : Int)).m
          = (ofInt (n : Int) * (regression_sums (xs.map fin) (ys.map fin) (n : Int)).sum_xy
              - (regression_sums (xs.map fin) (ys.map fin) (n : Int)).sum_x
                * (regression_sums (xs.map fin) (ys.map fin) (n : Int)).sum_y) / fin 0
      ∧ ∀ v : K, (linear_regression (xs.map fin) (ys.map fin) (n : Int)).m ≠ fin v := by
  have hD : slopeDen xs n = 0 := (slope_zero_of_allEqual xs ys n hn hc).1
  have hden := regression_den_fin xs ys n
  rw [hD] at hden
  refine ⟨hD, hden, ?_, ?_⟩
  · show _ / _ = _
    rw [hden]
  · intro v hv
    rw [linear_regression_of_allEqual xs ys n hn hc] at hv
    exact Double.noConfusion hv

/-- C14 (as amended): in exact arithmetic, for `n ≥ 1` the denominator
`n·Σx² - (Σx)²` computed by `linear_regression` is `n²` times the population
variance of the first `n` values of `x` (the quantity `calculate_variance`
computes); it is never negative, it is positive exactly when the values are not
all equal, and the slope returned by `linear_regression`, the quotient by this
denominator, is a finite value exactly when the values are not all equal. -/
theorem regression_denominator_eq_variance (xs ys : List K) (n : Nat) (hn : 1 ≤ n) :
    ofInt (n : Int) * (regression_sums (xs.map fin) (ys.map fin) (n : Int)).sum_x2
          - (regression_sums (xs.map fin) (ys.map fin) (n : Int)).sum_x
            * (regression_sums (xs.map fin) (ys.map fin) (n : Int)).sum_x
          = fin ((n : K) ^ 2 * popVar xs n)
      ∧ (n : K) * sumXY xs xs n - sumX xs n * sumX xs n = (n : K) ^ 2 * popVar xs n
      ∧ 0 ≤ (n : K) ^ 2 * popVar xs n
      ∧ (0 < (n : K) ^ 2 * popVar xs n ↔ ¬ AllEqual xs n)
      ∧ (∀ arr : List Int,
          calculate_variance K arr (n : Int) = fin (popVar (toField K arr) n))
      ∧ (linear_regression (xs.map fin) (ys.map fin) (n : Int)).m
          = fin ((n : K) * sumXY xs ys n - sumX xs n * sumX ys n)
              / fin ((n : K) ^ 2 * popVar xs n)
      ∧ ((∃ v : K, (linear_regression (xs.map fin) (ys.map fin) (n : Int)).m = fin v)
          ↔ ¬ AllEqual xs n) := by
  have hD := slopeDen_eq_popVar xs n hn
  refine ⟨?_, hD, ?_, ?_, fun arr => calculate_variance_eq_popVar arr n hn, ?_, ?_⟩
  · rw [regression_den_fin, hD]
  · rw [← hD]
    exact slopeDen_nonneg xs n
  · rw [← hD]
    constructor
    · intro hpos hc
      exact absurd (slope_zero_of_allEqual xs xs n hn hc).1 (ne_of_gt hpos)
    · exact slopeDen_pos xs n
  · rw [linear_regression_fin, ← hD]
    rfl
  · constructor
    · rintro ⟨v, hv⟩ hc
      rw [linear_regression_of_allEqual xs ys n hn hc] at hv
      exact Double.noConfusion hv
    · intro hvar
      have hne : slopeDen xs n ≠ 0 := ne_of_gt (slopeDen_pos xs n hvar)
      rw [linear_regression_of_den_ne xs ys n hn hne]
      exact ⟨_, rfl⟩

/-- C15 (as amended): in exact arithmetic, for integer data with `n ≥ 1` and
the first `n` values of `x` not all equal, the slope returned by
`linear_regression` on the converted data is
`covariance x y n / calculate_variance x n` and the intercept is
`sample_average y n - slope · sample_average x n`; both are finite. -/
theorem linear_regression_eq_cov_div_var (x y : List Int) (n : Nat) (hn : 1 ≤ n)
    (hvar : ¬ AllEqualInt x n) :
    (linear_regression (x.map (ofInt : Int → Double K)) (y.map ofInt) (n : Int)).m
        = covariance K x y (n : Int) / calculate_variance K x (n : Int)
      ∧ (linear_regression (x.map (ofInt : Int → Double K)) (y.map ofInt) (n : Int)).b
        = sample_average K y (n : Int)
          - (linear_regression (x.map (ofInt : Int → Double K)) (y.map ofInt) (n : Int)).m
            * sample_average K x (n : Int)
      ∧ ∃ m b : K,
          linear_regression (x.map (ofInt : Int → Double K)) (y.map ofInt) (n : Int)
            = { m := fin m, b := fin b } := by
  have hn0 : (n : K) ≠ 0 := natCast_ne_zero_of_pos K n hn
  have hvarK : ¬ AllEqual (toField K x) n := fun h => hvar ((allEqual_toField x n).mp h)
  have hD : slopeDen (toField K x) n ≠ 0 := ne_of_gt (slopeDen_pos _ n hvarK)
  have hV : popVar (toField K x) n ≠ 0 := by
    rw [popVar_eq _ n hn]
    exact div_ne_zero hD (pow_ne_zero 2 hn0)
  have hlr := linear_regression_of_den_ne (toField K x) (toField K y) n hn hD
  rw [map_ofInt, map_ofInt, hlr]
  refine ⟨?_, ?_, _, _, rfl⟩
  · rw [covariance_eq_popCov x y n hn, calculate_variance_eq_popVar x n hn,
      fin_div_fin _ _ hV, popCov_eq _ _ n hn, popVar_eq _ n hn]
    field_simp
  · rw [sample_average_eq_sumX y n hn, sample_average_eq_sumX x n hn, fin_mul_fin,
      fin_sub_fin]
    field_simp
    ring

/-- C18: for `n ≥ 1`, `covariance x x n` and `calculate_variance x n` are the
same finite value. -/
theorem covariance_self (x : List Int) (n : Nat) (hn : 1 ≤ n) :
    covariance K x x (n : Int) = calculate_variance K x (n : Int)
      ∧ ∃ v : K, covariance K x x (n : Int) = fin v
          ∧ calculate_variance K x (n : Int) = fin v := by
  refine ⟨rfl, popVar (toField K x) n, ?_, calculate_variance_eq_popVar x n hn⟩
  exact calculate_variance_eq_popVar x n hn

/-- C19: for `n ≥ 1` within both lengths, `covariance x y n` and
`covariance y x n` are the same finite value, and therefore
`correlation x y n` and `correlation y x n` are the same value. -/
theorem covariance_symm (sq : K → K) (x y : List Int) (n : Nat) (hn : 1 ≤ n)
    (hx : n ≤ x.length) (hy : n ≤ y.length) :
    covariance K x y (n : Int) = covariance K y x (n : Int)
      ∧ (∃ v : K, covariance K x y (n : Int) = fin v ∧ covariance K y x (n : Int) = fin v)
      ∧ correlation sq x y (n : Int) = correlation sq y x (n : Int) := by
  have _hx := hx
  have _hy := hy
  have hxy := covariance_eq_popCov (K := K) x y n hn
  have hyx := covariance_eq_popCov (K := K) y x n hn
  rw [popCov_comm] at hyx
  have hcov : covariance K x y (n : Int) = covariance K y x (n : Int) := by
    rw [hxy, hyx]
  refine ⟨hcov, ⟨_, hxy, hyx⟩, ?_⟩
  simp only [correlation]
  rw [hcov, double_mul_comm]

end RelationClaims

/-! ## Truncation: only the first `size` elements are read -/

section Truncation

variable {K : Type} [LinearOrderedField K]

theorem getD_take_lt {α : Type} (l : List α) (n i : Nat) (d : α) (h : i < n) :
    (l.take n).getD i d = l.getD i d := by
  induction l generalizing n i with
  | nil => simp
  | cons a as ih =>
    cases n with
    | zero => omega
    | succ k =>
      cases i with
      | zero => simp
      | succ j =>
        simp only [List.take_succ_cons, List.getD_cons_succ]
        exact ih k j (by omega)

theorem sumX_take (xs : List K) (n : Nat) : sumX (xs.take n) n = sumX xs n := by
  unfold sumX
  exact Finset.sum_congr rfl
    (fun i hi => getD_take_lt xs n i 0 (Finset.mem_range.mp hi))

theorem sumXY_take (xs ys : List K) (n : Nat) :
    sumXY (xs.take n) (ys.take n) n = sumXY xs ys n := by
  unfold sumXY
  exact Finset.sum_congr rfl (fun i hi => by
    rw [getD_take_lt xs n i 0 (Finset.mem_range.mp hi),
      getD_take_lt ys n i 0 (Finset.mem_range.mp hi)])

theorem intSum_take (arr : List Int) (n : Nat) : intSum K (arr.take n) n = intSum K arr n := by
  unfold intSum
  exact Finset.sum_congr rfl (fun i hi => by
    rw [getD_take_lt arr n i 0 (Finset.mem_range.mp hi)])

theorem sample_average_take (arr : List Int) (n : Nat) (hn : 1 ≤ n) :
    sample_average K (arr.take n) (n : Int) = sample_average K arr (n : Int) := by
  rw [sample_average_fin K _ n hn, sample_average_fin K _ n hn, intSum_take]

theorem covariance_take (x y : List Int) (n : Nat) (hn : 1 ≤ n) :
    covariance K (x.take n) (y.take n) (n : Int) = covariance K x y (n : Int) := by
  rw [covariance_fin K _ _ n hn, covariance_fin K _ _ n hn, intSum_take, intSum_take]
  congr 2
  exact Finset.sum_congr rfl (fun i hi => by
    rw [getD_take_lt x n i 0 (Finset.mem_range.mp hi),
      getD_take_lt y n i 0 (Finset.mem_range.mp hi)])

theorem correlation_take (sq : K → K) (x y : List Int) (n : Nat) (hn : 1 ≤ n) :
    correlation sq (x.take n) (y.take n) (n : Int) = correlation sq x y (n : Int) := by
  simp only [correlation, standard_deviation, covariance_take x y n hn,
    sample_average_take _ n hn]

theorem linear_regression_take (xs ys : List K) (n : Nat) :
    linear_regression ((xs.take n).map fin) ((ys.take n).map fin) (n : Int)
      = linear_regression (xs.map fin) (ys.map fin) (n : Int) := by
  simp only [linear_regression_fin, slopeNum, slopeDen, sumX_take, sumXY_take]

end Truncation

/-! ## The denominator of `correlation` -/

section CorrelationDen

variable {K : Type} [LinearOrderedField K]

theorem sqrt_fin_of_nonneg (sq : K → K) (a : K) (h : 0 ≤ a) :
    Double.sqrt sq (fin a) = fin (sq a) := by
  simp only [Double.sqrt, not_lt.mpr h, if_false]

theorem sqrt_fin_of_neg (sq : K → K) (a : K) (h : a < 0) :
    Double.sqrt sq (fin a) = nan := by
  simp only [Double.sqrt, h, if_true]

theorem sq_zero_of_mul_self (sq : K → K) (hsq : ∀ a, 0 ≤ a → sq a * sq a = a) : sq 0 = 0 :=
  mul_self_eq_zero.mp (hsq 0 (le_refl 0))

theorem mul_nan (a : Double K) : (a * nan : Double K) = nan := by
  show Double.mul a nan = nan
  cases a <;> rfl

/-- A finite value divided by zero is not a finite value. -/
theorem fin_div_zero_ne_fin (c v : K) : (fin c / fin 0 : Double K) ≠ fin v := by
  show Double.div (fin c) (fin 0) ≠ fin v
  simp only [Double.div, if_true, infOfSign]
  split_ifs <;> exact fun h => Double.noConfusion h

theorem div_nan (a : Double K) : (a / nan : Double K) = nan := by
  show Double.div a nan = nan
  cases a <;> rfl

/-- The product of the two standard deviations when one mean is zero and
neither is negative. -/
theorem std_mul_of_zero_mean (sq : K → K) (hsq : ∀ a, 0 ≤ a → sq a * sq a = a)
    (mx my : K) (h0 : mx = 0 ∨ my = 0) (hx : 0 ≤ mx) (hy : 0 ≤ my) :
    Double.sqrt sq (fin mx) * Double.sqrt sq (fin my) = fin 0 := by
  rw [sqrt_fin_of_nonneg sq mx hx, sqrt_fin_of_nonneg sq my hy, fin_mul_fin]
  rcases h0 with h | h
  · rw [h, sq_zero_of_mul_self sq hsq, zero_mul]
  · rw [h, sq_zero_of_mul_self sq hsq, mul_zero]

/-- The product of the two standard deviations when one mean is negative and
the other is finite. -/
theorem std_mul_of_neg_mean (sq : K → K) (mx my : K) (hneg : mx < 0 ∨ my < 0) :
    Double.sqrt sq (fin mx) * Double.sqrt sq (fin my) = nan := by
  rcases hneg with h | h
  · rw [sqrt_fin_of_neg sq mx h, nan_mul]
  · rw [sqrt_fin_of_neg sq my h, mul_nan]

end CorrelationDen

section EdgeClaims

variable {K : Type} [LinearOrderedField K]

/-- C11 (as amended): called with two sequences of different lengths and a size
`n ≥ 1` within both, `covariance`, `correlation` and `linear_regression` signal
no error: each returns the value it returns on the two sequences truncated to
their first `n` elements, and the covariance is a finite value. -/
theorem length_mismatch_uses_size (sq : K → K) (x y : List Int) (xs ys : List K) (n : Nat)
    (hn : 1 ≤ n) (hx : n ≤ x.length) (hy : n ≤ y.length) (hxy : x.length ≠ y.length)
    (hxs : n ≤ xs.length) (hys : n ≤ ys.length) (hxys : xs.length ≠ ys.length) :
    covariance K x y (n : Int) = covariance K (x.take n) (y.take n) (n : Int)
      ∧ (∃ c : K, covariance K x y (n : Int) = fin c)
      ∧ correlation sq x y (n : Int) = correlation sq (x.take n) (y.take n) (n : Int)
      ∧ linear_regression (xs.map fin) (ys.map fin) (n : Int)
          = linear_regression ((xs.take n).map fin) ((ys.take n).map fin) (n : Int) := by
  have _h := And.intro (And.intro hx hy) (And.intro hxy (And.intro hxs (And.intro hys hxys)))
  exact ⟨(covariance_take x y n hn).symm, ⟨_, covariance_fin K x y n hn⟩,
    (correlation_take sq x y n hn).symm, (linear_regression_take xs ys n).symm⟩

/-- C13 (as amended): for `n ≥ 1`, if the mean of `x` or the mean of `y` is `0`
and neither mean is negative, the denominator
`standard_deviation x n · standard_deviation y n` of `correlation` is `0`; if
one of the means is negative the denominator is NaN; in both cases the result
of `correlation` is not a finite number. -/
theorem correlation_zero_mean (sq : K → K) (hsq : ∀ a, 0 ≤ a → sq a * sq a = a)
    (x y : List Int) (n : Nat) (hn : 1 ≤ n) (mx my : K)
    (hmx : sample_average K x (n : Int) = fin mx)
    (hmy : sample_average K y (n : Int) = fin my) (h0 : mx = 0 ∨ my = 0) :
    (0 ≤ mx → 0 ≤ my →
        standard_deviation sq x (n : Int) * standard_deviation sq y (n : Int) = fin 0)
      ∧ (mx < 0 ∨ my < 0 →
        standard_deviation sq x (n : Int) * standard_deviation sq y (n : Int) = nan)
      ∧ ∀ v : K, correlation sq x y (n : Int) ≠ fin v := by
  refine ⟨?_, ?_, ?_⟩
  · intro hx hy
    rw [standard_deviation, standard_deviation, hmx, hmy]
    exact std_mul_of_zero_mean sq hsq mx my h0 hx hy
  · intro hneg
    rw [standard_deviation, standard_deviation, hmx, hmy]
    exact std_mul_of_neg_mean sq mx my hneg
  · intro v
    simp only [correlation, standard_deviation, hmx, hmy, covariance_fin K x y n hn]
    by_cases hneg : mx < 0 ∨ my < 0
    · rw [std_mul_of_neg_mean sq mx my hneg, div_nan]
      exact fun h => Double.noConfusion h
    · have hx : 0 ≤ mx := not_lt.mp (fun h => hneg (Or.inl h))
      have hy : 0 ≤ my := not_lt.mp (fun h => hneg (Or.inr h))
      rw [std_mul_of_zero_mean sq hsq mx my h0 hx hy]
      exact fin_div_zero_ne_fin _ v

/-- The covariance of `{0,100}` with itself. -/
theorem covariance_zero_hundred : covariance K [0, 100] [0, 100] 2 = fin 2500 := by
  have h := covariance_fin K [0, 100] [0, 100] 2 (by norm_num)
  simp only [intSum, Finset.sum_range_succ, Finset.sum_range_zero] at h
  norm_num at h
  exact h

/-- The mean of `{0,100}`. -/
theorem sample_average_zero_hundred : sample_average K [0, 100] 2 = fin 50 := by
  have h := sample_average_fin K [0, 100] 2 (by norm_num)
  rw [intSum_eq_take] at h
  norm_num at h
  exact h

/-- C16: the value of `correlation` is not confined to `[-1, 1]`: on
`x = y = {0, 100}` with `n = 2`, sequences of equal positive length with the
positive mean `50`, it is `2500 / 50 = 50 > 1`. -/
theorem correlation_exceeds_one (sq : K → K) (hsq : ∀ a, 0 ≤ a → sq a * sq a = a) :
    sample_average K [0, 100] 2 = fin 50
      ∧ covariance K [0, 100] [0, 100] 2 = fin 2500
      ∧ standard_deviation sq [0, 100] 2 * standard_deviation sq [0, 100] 2 = fin 50
      ∧ correlation sq [0, 100] [0, 100] 2 = fin 50
      ∧ (1 : K) < 50 := by
  have h50 : (0 : K) ≤ 50 := by norm_num
  have hden : standard_deviation sq [0, 100] 2 * standard_deviation sq [0, 100] 2
      = (fin 50 : Double K) := by
    rw [standard_deviation, sample_average_zero_hundred, sqrt_fin_of_nonneg sq 50 h50,
      fin_mul_fin, hsq 50 h50]
  refine ⟨sample_average_zero_hundred, covariance_zero_hundred, hden, ?_, by norm_num⟩
  have hcor : correlation sq [0, 100] [0, 100] 2
      = covariance K [0, 100] [0, 100] 2
        / (standard_deviation sq [0, 100] 2 * standard_deviation sq [0, 100] 2) := rfl
  rw [hcor, hden, covariance_zero_hundred, fin_div_fin _ _ (by norm_num)]
  norm_num

end EdgeClaims

/-! ## Properties of the binary64 rounding -/

namespace Binary64

theorem int_log_two_eq (q : ℚ) (E : ℤ) (h1 : (2 : ℚ) ^ E ≤ q) (h2 : q < (2 : ℚ) ^ (E + 1)) :
    Int.log 2 q = E := by
  have hq : 0 < q := lt_of_lt_of_le (zpow_pos (by norm_num) E) h1
  have hb : 1 < 2 := by norm_num
  have hle : E ≤ Int.log 2 q := by
    rw [← Int.zpow_le_iff_le_log hb hq]
    simpa using h1
  have hlt : Int.log 2 q < E + 1 := by
    rw [← Int.lt_zpow_iff_log_lt hb hq]
    simpa using h2
  omega

theorem roundEven_intCast (z : ℤ) : roundEven (z : ℚ) = z := by
  unfold roundEven
  simp

theorem roundEven_near (r : ℚ) (k : ℤ) (h1 : (k : ℚ) - 1 / 2 < r) (h2 : r < (k : ℚ) + 1 / 2) :
    roundEven r = k := by
  unfold roundEven
  rcases lt_or_le r (k : ℚ) with hlt | hge
  · have hf : ⌊r⌋ = k - 1 := by
      rw [Int.floor_eq_iff]
      push_cast
      constructor <;> linarith
    rw [hf]
    push_cast
    have hn1 : ¬ (r - ((k : ℚ) - 1) < 1 / 2) := by linarith
    have hn2 : 1 / 2 < r - ((k : ℚ) - 1) := by linarith
    rw [if_neg hn1, if_pos hn2]
    ring
  · have hf : ⌊r⌋ = k := by
      rw [Int.floor_eq_iff]
      constructor <;> linarith
    rw [hf]
    have hp : r - (k : ℚ) < 1 / 2 := by linarith
    rw [if_pos hp]

theorem roundEven_tie (r : ℚ) (k : ℤ) (h : r = (k : ℚ) + 1 / 2 ∨ r = (k : ℚ) - 1 / 2)
    (hk : k % 2 = 0) : roundEven r = k := by
  unfold roundEven
  rcases h with h | h
  · have hf : ⌊r⌋ = k := by
      rw [Int.floor_eq_iff]
      constructor <;> linarith
    rw [hf]
    have hn1 : ¬ (r - (k : ℚ) < 1 / 2) := by linarith
    have hn2 : ¬ (1 / 2 < r - (k : ℚ)) := by linarith
    rw [if_neg hn1, if_neg hn2, if_pos hk]
  · have hf : ⌊r⌋ = k - 1 := by
      rw [Int.floor_eq_iff]
      push_cast
      constructor <;> linarith
    rw [hf]
    push_cast
    have hn1 : ¬ (r - ((k : ℚ) - 1) < 1 / 2) := by linarith
    have hn2 : ¬ (1 / 2 < r - ((k : ℚ) - 1)) := by linarith
    have hodd : ¬ ((k - 1) % 2 = 0) := by omega
    rw [if_neg hn1, if_neg hn2, if_neg hodd]
    ring

theorem ulpExp_eq (q : ℚ) (E : ℤ) (h1 : (2 : ℚ) ^ E ≤ q) (h2 : q < (2 : ℚ) ^ (E + 1))
    (hE : -1022 ≤ E) : ulpExp q = E - 52 := by
  have hq : 0 < q := lt_of_lt_of_le (zpow_pos (by norm_num) E) h1
  unfold ulpExp
  rw [abs_of_pos hq, int_log_two_eq q E h1 h2, max_eq_left hE]

/-- The value of `rnd` from the rounded multiple of the unit in the last
place, when no overflow occurs. -/
theorem rnd_of_roundEven (q v : ℚ) (u k : ℤ) (hu : ulpExp q = u)
    (hk : roundEven (q / 2 ^ u) = k) (hv : v = (k : ℚ) * 2 ^ u)
    (hlo : -2 ^ (1024 : ℤ) < v) (hhi : v < 2 ^ (1024 : ℤ)) : rnd q = fin v := by
  unfold rnd
  simp only [hu, hk, ← hv]
  rw [if_neg (not_le.mpr hhi), if_neg (not_le.mpr hlo)]

/-- Rounding of a positive value that is nearer to `v = k·2^(E-52)` than to any
other multiple of `2^(E-52)`. -/
theorem rnd_near (q v : ℚ) (E k : ℤ) (h1 : (2 : ℚ) ^ E ≤ q) (h2 : q < (2 : ℚ) ^ (E + 1))
    (hE : -1022 ≤ E) (hE2 : E ≤ 1022) (hv : v = (k : ℚ) * 2 ^ (E - 52))
    (hlo : v - 2 ^ (E - 52) / 2 < q) (hhi : q < v + 2 ^ (E - 52) / 2) : rnd q = fin v := by
  have hu := ulpExp_eq q E h1 h2 hE
  have hpos : (0 : ℚ) < 2 ^ (E - 52) := zpow_pos (by norm_num) _
  have hE0 : (0 : ℚ) < 2 ^ E := zpow_pos (by norm_num) _
  have hule : (2 : ℚ) ^ (E - 52) ≤ 2 ^ E := zpow_le_zpow_right₀ (by norm_num) (by omega)
  have hk : roundEven (q / 2 ^ (E - 52)) = k := by
    apply roundEven_near
    · rw [lt_div_iff₀ hpos]
      rw [hv] at hlo
      linarith
    · rw [div_lt_iff₀ hpos]
      rw [hv] at hhi
      linarith
  have htop : (2 : ℚ) ^ (E + 1) ≤ 2 ^ (1023 : ℤ) := zpow_le_zpow_right₀ (by norm_num) (by omega)
  have h24 : (2 : ℚ) ^ (1024 : ℤ) = 2 * 2 ^ (1023 : ℤ) := by
    rw [show (1024 : ℤ) = 1 + 1023 by norm_num, zpow_add₀ (by norm_num), zpow_one]
  have h23 : (0 : ℚ) < 2 ^ (1023 : ℤ) := zpow_pos (by norm_num) _
  have hE1 : (2 : ℚ) ^ (E + 1) = 2 * 2 ^ E := by
    rw [add_comm, zpow_add₀ (by norm_num), zpow_one]
  apply rnd_of_roundEven q v (E - 52) k hu hk hv
  · linarith
  · linarith

/-- Rounding of a positive value half way between two multiples of `2^(E-52)`:
the even multiple is taken. -/
theorem rnd_tie (q v : ℚ) (E k : ℤ) (h1 : (2 : ℚ) ^ E ≤ q) (h2 : q < (2 : ℚ) ^ (E + 1))
    (hE : -1022 ≤ E) (hE2 : E ≤ 1022) (hv : v = (k : ℚ) * 2 ^ (E - 52))
    (htie : q = v + 2 ^ (E - 52) / 2 ∨ q = v - 2 ^ (E - 52) / 2) (hk : k % 2 = 0) :
    rnd q = fin v := by
  have hu := ulpExp_eq q E h1 h2 hE
  have hpos : (0 : ℚ) < 2 ^ (E - 52) := zpow_pos (by norm_num) _
  have hE0 : (0 : ℚ) < 2 ^ E := zpow_pos (by norm_num) _
  have hule : (2 : ℚ) ^ (E - 52) ≤ 2 ^ E := zpow_le_zpow_right₀ (by norm_num) (by omega)
  have hkr : roundEven (q / 2 ^ (E - 52)) = k := by
    apply roundEven_tie _ _ _ hk
    rcases htie with h | h
    · left
      rw [h, hv]
      field_simp
      ring
    · right
      rw [h, hv]
      field_simp
      ring
  have htop : (2 : ℚ) ^ (E + 1) ≤ 2 ^ (1023 : ℤ) := zpow_le_zpow_right₀ (by norm_num) (by omega)
  have h24 : (2 : ℚ) ^ (1024 : ℤ) = 2 * 2 ^ (1023 : ℤ) := by
    rw [show (1024 : ℤ) = 1 + 1023 by norm_num, zpow_add₀ (by norm_num), zpow_one]
  have h23 : (0 : ℚ) < 2 ^ (1023 : ℤ) := zpow_pos (by norm_num) _
  have hE1 : (2 : ℚ) ^ (E + 1) = 2 * 2 ^ E := by
    rw [add_comm, zpow_add₀ (by norm_num), zpow_one]
  apply rnd_of_roundEven q v (E - 52) k hu hkr hv
  · rcases htie with h | h <;> linarith
  · rcases htie with h | h <;> linarith

/-- A value `z·2^e` with `|z| < 2^53` in the exponent range of binary64 is
representable: rounding does not change it. -/
theorem rnd_exact (q : ℚ) (z e : ℤ) (hq : q = (z : ℚ) * 2 ^ e) (hz1 : -2 ^ 53 < z)
    (hz2 : z < 2 ^ 53) (he1 : -1074 ≤ e) (he2 : e ≤ 970) : rnd q = fin q := by
  have h2e : (0 : ℚ) < 2 ^ e := zpow_pos (by norm_num) _
  rcases eq_or_ne z 0 with hz | hz
  · subst hz
    have hq0 : q = 0 := by rw [hq]; simp
    subst hq0
    apply rnd_of_roundEven 0 0 (ulpExp 0) 0 rfl
    · rw [zero_div]
      exact roundEven_intCast 0
    · simp
    · have : (0 : ℚ) < 2 ^ (1024 : ℤ) := zpow_pos (by norm_num) _
      linarith
    · exact zpow_pos (by norm_num) _
  · have hzabs : |z| < 2 ^ 53 := abs_lt.mpr ⟨hz1, hz2⟩
    have hzabs1 : 1 ≤ |z| := Int.one_le_abs hz
    have hzq : |(z : ℚ)| < 2 ^ (53 : ℤ) := by
      have : ((|z| : ℤ) : ℚ) < ((2 ^ 53 : ℤ) : ℚ) := by exact_mod_cast hzabs
      rw [Int.cast_abs] at this
      calc |(z : ℚ)| < ((2 ^ 53 : ℤ) : ℚ) := this
        _ = 2 ^ (53 : ℤ) := by norm_num
    have hzq1 : (1 : ℚ) ≤ |(z : ℚ)| := by
      have : ((1 : ℤ) : ℚ) ≤ ((|z| : ℤ) : ℚ) := by exact_mod_cast hzabs1
      rw [Int.cast_abs] at this
      simpa using this
    have habs : |q| = |(z : ℚ)| * 2 ^ e := by
      rw [hq, abs_mul, abs_of_pos h2e]
    have hqpos : 0 < |q| := by
      rw [habs]
      exact mul_pos (lt_of_lt_of_le one_pos hzq1) h2e
    have hqlt : |q| < 2 ^ (53 + e) := by
      rw [habs, zpow_add₀ (by norm_num)]
      exact mul_lt_mul_of_pos_right hzq h2e
    have hlog : Int.log 2 |q| < 53 + e := by
      have hb : 1 < 2 := by norm_num
      rw [← Int.lt_zpow_iff_log_lt hb hqpos]
      simpa using hqlt
    obtain ⟨u, hu⟩ : ∃ u, ulpExp q = u := ⟨_, rfl⟩
    have hule : u ≤ e := by
      rw [← hu]
      unfold ulpExp
      rcases max_cases (Int.log 2 |q|) (-1022) with ⟨hm, _⟩ | ⟨hm, _⟩ <;> rw [hm] <;> omega
    obtain ⟨d, hd⟩ := Int.eq_ofNat_of_zero_le (sub_nonneg.mpr hule)
    have hsplit : (2 : ℚ) ^ e = 2 ^ d * 2 ^ u := by
      rw [← zpow_natCast, ← zpow_add₀ (by norm_num), ← hd]
      congr 1
      ring
    have hupos : (0 : ℚ) < 2 ^ u := zpow_pos (by norm_num) _
    have hquot : q / 2 ^ u = ((z * 2 ^ d : ℤ) : ℚ) := by
      rw [hq, hsplit]
      push_cast
      field_simp
      ring
    have hlt24 : |q| < 2 ^ (1024 : ℤ) :=
      lt_of_lt_of_le hqlt (zpow_le_zpow_right₀ (by norm_num) (by omega))
    apply rnd_of_roundEven q q u (z * 2 ^ d) hu
    · rw [hquot]
      exact roundEven_intCast _
    · rw [hq, hsplit]
      push_cast
      ring
    · have := (abs_lt.mp hlt24).1
      linarith
    · exact (abs_lt.mp hlt24).2

/-- Integers of magnitude below `2^53` are representable. -/
theorem rnd_int (z : ℤ) (hz1 : -2 ^ 53 < z) (hz2 : z < 2 ^ 53) : rnd (z : ℚ) = fin (z : ℚ) :=
  rnd_exact (z : ℚ) z 0 (by simp) hz1 hz2 (by norm_num) (by norm_num)

theorem add64_fin (a b : ℚ) : add64 (fin a) (fin b) = rnd (a + b) := rfl

theorem sub64_fin (a b : ℚ) : sub64 (fin a) (fin b) = rnd (a - b) := by
  show round64 (Double.add (fin a) (Double.neg (fin b))) = rnd (a - b)
  simp [Double.add, Double.neg, round64, sub_eq_add_neg]

theorem mul64_fin (a b : ℚ) : mul64 (fin a) (fin b) = rnd (a * b) := rfl

theorem div64_fin (a b : ℚ) (hb : b ≠ 0) : div64 (fin a) (fin b) = rnd (a / b) := by
  show round64 (Double.div (fin a) (fin b)) = rnd (a / b)
  simp [Double.div, hb, round64]

theorem div64_zero_zero : div64 (fin 0) (fin 0) = nan := by
  show round64 (Double.div (fin 0) (fin 0)) = nan
  simp [Double.div, round64]

theorem mul64_nan_left (a : Double ℚ) : mul64 nan a = nan := by
  show round64 (Double.mul nan a) = nan
  cases a <;> rfl

theorem sub64_nan_right (a : Double ℚ) : sub64 a nan = nan := by
  show round64 (Double.add a (Double.neg nan)) = nan
  cases a <;> rfl

theorem div64_nan_left (a : Double ℚ) : div64 nan a = nan := by
  show round64 (Double.div nan a) = nan
  cases a <;> rfl

/-- A quotient by zero is never a finite value. -/
theorem div64_zero_not_fin (a : Double ℚ) (v : ℚ) : div64 a (fin 0) ≠ fin v := by
  show round64 (Double.div a (fin 0)) ≠ fin v
  cases a with
  | fin q =>
    by_cases hq : q = 0
    · simp [Double.div, round64, hq]
    · by_cases hp : 0 < q <;> simp [Double.div, round64, hq, hp, infOfSign]
  | pinf => simp [Double.div, round64]
  | ninf => simp [Double.div, round64]
  | nan => simp [Double.div, round64]

/-- A product with a non-finite left factor is not finite. -/
theorem mul64_not_fin (a b : Double ℚ) (ha : ∀ v, a ≠ fin v) (v : ℚ) : mul64 a b ≠ fin v := by
  show round64 (Double.mul a b) ≠ fin v
  cases a with
  | fin q => exact absurd rfl (ha q)
  | pinf =>
    cases b with
    | fin r =>
      by_cases hr : r = 0
      · simp [Double.mul, round64, hr]
      · by_cases hp : 0 < r <;> simp [Double.mul, round64, hr, hp, infOfSign]
    | pinf => simp [Double.mul, round64]
    | ninf => simp [Double.mul, round64]
    | nan => simp [Double.mul, round64]
  | ninf =>
    cases b with
    | fin r =>
      by_cases hr : r = 0
      · simp [Double.mul, round64, hr]
      · by_cases hp : 0 < -r <;> simp [Double.mul, round64, hr, hp, infOfSign]
    | pinf => simp [Double.mul, round64]
    | ninf => simp [Double.mul, round64]
    | nan => simp [Double.mul, round64]
  | nan => cases b <;> simp [Double.mul, round64]

/-- A difference with a non-finite subtrahend is not finite. -/
theorem sub64_not_fin (a b : Double ℚ) (hb : ∀ v, b ≠ fin v) (v : ℚ) : sub64 a b ≠ fin v := by
  show round64 (Double.add a (Double.neg b)) ≠ fin v
  cases b with
  | fin q => exact absurd rfl (hb q)
  | pinf => cases a <;> simp [Double.add, Double.neg, round64]
  | ninf => cases a <;> simp [Double.add, Double.neg, round64]
  | nan => cases a <;> simp [Double.add, Double.neg, round64]

/-- A quotient with a non-finite dividend is not finite. -/
theorem div64_not_fin (a b : Double ℚ) (ha : ∀ v, a ≠ fin v) (v : ℚ) : div64 a b ≠ fin v := by
  show round64 (Double.div a b) ≠ fin v
  cases a with
  | fin q => exact absurd rfl (ha q)
  | pinf =>
    cases b with
    | fin r => by_cases hr : r < 0 <;> simp [Double.div, round64, hr]
    | pinf => simp [Double.div, round64]
    | ninf => simp [Double.div, round64]
    | nan => simp [Double.div, round64]
  | ninf =>
    cases b with
    | fin r => by_cases hr : r < 0 <;> simp [Double.div, round64, hr]
    | pinf => simp [Double.div, round64]
    | ninf => simp [Double.div, round64]
    | nan => simp [Double.div, round64]
  | nan => cases b <;> simp [Double.div, round64]

/-- When the denominator computed by `linear_regression` is zero, neither the
slope nor the intercept it returns is a finite value. -/
theorem linear_regression_den_zero (x y : List (Double ℚ)) (size : Int)
    (hden : sub64 (mul64 (ofInt64 size) (Binary64.regression_sums x y size).sum_x2)
        (mul64 (Binary64.regression_sums x y size).sum_x
          (Binary64.regression_sums x y size).sum_x) = fin 0) :
    (∀ v, (Binary64.linear_regression x y size).m ≠ fin v)
      ∧ ∀ v, (Binary64.linear_regression x y size).b ≠ fin v := by
  have hm : ∀ v, (Binary64.linear_regression x y size).m ≠ fin v := by
    intro v
    show div64 _ _ ≠ fin v
    rw [hden]
    exact div64_zero_not_fin _ v
  refine ⟨hm, ?_⟩
  intro v
  show div64 (sub64 _ (mul64 (Binary64.linear_regression x y size).m _)) _ ≠ fin v
  exact div64_not_fin _ _ (sub64_not_fin _ _ (mul64_not_fin _ _ hm)) v

/-- The steps of `sample_average` on three elements. -/
theorem sample_average_three (a b c : ℤ) :
    Binary64.sample_average [a, b, c] 3
      = div64 (add64 (add64 (add64 (fin 0) (ofInt64 a)) (ofInt64 b)) (ofInt64 c)) (ofInt64 3) := by
  have hr : List.range (Int.toNat 3) = [0, 1, 2] := by decide
  simp only [Binary64.sample_average, hr, List.foldl_cons, List.foldl_nil,
    List.getD_cons_zero, List.getD_cons_succ]

/-- The steps of `covariance` on three pairs. -/
theorem covariance_three (a b c p q r : ℤ) (mx my : Double ℚ)
    (hx : Binary64.sample_average [a, b, c] 3 = mx)
    (hy : Binary64.sample_average [p, q, r] 3 = my) :
    Binary64.covariance [a, b, c] [p, q, r] 3
      = div64
          (add64
            (add64
              (add64 (fin 0) (mul64 (sub64 (ofInt64 a) mx) (sub64 (ofInt64 p) my)))
              (mul64 (sub64 (ofInt64 b) mx) (sub64 (ofInt64 q) my)))
            (mul64 (sub64 (ofInt64 c) mx) (sub64 (ofInt64 r) my)))
          (ofInt64 3) := by
  have hr : List.range (Int.toNat 3) = [0, 1, 2] := by decide
  simp only [Binary64.covariance, hx, hy, hr, List.foldl_cons, List.foldl_nil,
    List.getD_cons_zero, List.getD_cons_succ]

/-- The steps of `calculate_variance` on three elements. -/
theorem calculate_variance_three (a b c : ℤ) (mx : Double ℚ)
    (hx : Binary64.sample_average [a, b, c] 3 = mx) :
    Binary64.calculate_variance [a, b, c] 3
      = div64
          (add64
            (add64
              (add64 (fin 0) (mul64 (sub64 (ofInt64 a) mx) (sub64 (ofInt64 a) mx)))
              (mul64 (sub64 (ofInt64 b) mx) (sub64 (ofInt64 b) mx)))
            (mul64 (sub64 (ofInt64 c) mx) (sub64 (ofInt64 c) mx)))
          (ofInt64 3) := by
  have hr : List.range (Int.toNat 3) = [0, 1, 2] := by decide
  simp only [Binary64.calculate_variance, hx, hr, List.foldl_cons, List.foldl_nil,
    List.getD_cons_zero, List.getD_cons_succ]

/-- The conversion of an integer of magnitude below `2^53` is exact. -/
theorem ofInt64_small (z : ℤ) (q : ℚ) (hq : (z : ℚ) = q) (hz1 : -2 ^ 53 < z) (hz2 : z < 2 ^ 53) :
    ofInt64 z = fin q := by
  rw [← hq]
  exact rnd_int z hz1 hz2

theorem map_ofInt64_three (a b c : ℤ) :
    [a, b, c].map ofInt64 = [ofInt64 a, ofInt64 b, ofInt64 c] := rfl

end Binary64

/-! ## The binary64 functions on concrete data -/

section Binary64Traces

open Binary64 (rnd add64 sub64 mul64 div64 ofInt64 round64 rnd_exact rnd_near rnd_tie
  add64_fin sub64_fin mul64_fin div64_fin)

/-- In binary64, on `x = {200000001, 200000002, 200000003}`, `y = {1, 2, 3}` the
squares of `x` and their sum are rounded, and the denominator
`n·Σx² - (Σx)²` comes out as `-64`. -/
theorem binary64_regression_den :
    sub64
        (mul64 (ofInt64 3)
          (Binary64.regression_sums [fin 200000001, fin 200000002, fin 200000003]
            [fin 1, fin 2, fin 3] 3).sum_x2)
        (mul64
          (Binary64.regression_sums [fin 200000001, fin 200000002, fin 200000003]
            [fin 1, fin 2, fin 3] 3).sum_x
          (Binary64.regression_sums [fin 200000001, fin 200000002, fin 200000003]
            [fin 1, fin 2, fin 3] 3).sum_x)
      = fin (-64) := by
  have h0 : rnd 200000001 = fin 200000001 :=
    rnd_exact 200000001 200000001 0 (by norm_num) (by norm_num) (by norm_num) (by norm_num) (by norm_num)
  have h1 : rnd 1 = fin 1 :=
    rnd_exact 1 1 0 (by norm_num) (by norm_num) (by norm_num) (by norm_num) (by norm_num)
  have h2 : rnd 40000000400000001 = fin 40000000400000000 :=
    rnd_near 40000000400000001 40000000400000000 55 5000000050000000 (by norm_num) (by norm_num) (by norm_num) (by norm_num)
      (by norm_num) (by norm_num) (by norm_num)
  have h3 : rnd 40000000400000000 = fin 40000000400000000 :=
    rnd_exact 40000000400000000 5000000050000000 3 (by norm_num) (by norm_num) (by norm_num) (by norm_num) (by norm_num)
  have h4 : rnd 400000003 = fin 400000003 :=
    rnd_exact 400000003 400000003 0 (by norm_num) (by norm_num) (by norm_num) (by norm_num) (by norm_num)
  have h5 : rnd 3 = fin 3 :=
    rnd_exact 3 3 0 (by norm_num) (by norm_num) (by norm_num) (by norm_num) (by norm_num)
  have h6 : rnd 40000000800000004 = fin 40000000800000000 :=
    rnd_tie 40000000800000004 40000000800000000 55 5000000100000000 (by norm_num) (by norm_num) (by norm_num) (by norm_num)
      (by norm_num) (by norm_num) (by decide)
  have h7 : rnd 80000001200000000 = fin 80000001200000000 :=
    rnd_exact 80000001200000000 5000000075000000 4 (by norm_num) (by norm_num) (by norm_num) (by norm_num) (by norm_num)
  have h8 : rnd 400000004 = fin 400000004 :=
    rnd_exact 400000004 400000004 0 (by norm_num) (by norm_num) (by norm_num) (by norm_num) (by norm_num)
  have h9 : rnd 600000005 = fin 600000005 :=
    rnd_exact 600000005 600000005 0 (by norm_num) (by norm_num) (by norm_num) (by norm_num) (by norm_num)
  have h10 : rnd 600000006 = fin 600000006 :=
    rnd_exact 600000006 600000006 0 (by norm_num) (by norm_num) (by norm_num) (by norm_num) (by norm_num)
  have h11 : rnd 6 = fin 6 :=
    rnd_exact 6 6 0 (by norm_num) (by norm_num) (by norm_num) (by norm_num) (by norm_num)
  have h12 : rnd 40000001200000009 = fin 40000001200000008 :=
    rnd_near 40000001200000009 40000001200000008 55 5000000150000001 (by norm_num) (by norm_num) (by norm_num) (by norm_num)
      (by norm_num) (by norm_num) (by norm_num)
  have h13 : rnd 120000002400000008 = fin 120000002400000000 :=
    rnd_tie 120000002400000008 120000002400000000 56 7500000150000000 (by norm_num) (by norm_num) (by norm_num) (by norm_num)
      (by norm_num) (by norm_num) (by decide)
  have h14 : rnd 600000009 = fin 600000009 :=
    rnd_exact 600000009 600000009 0 (by norm_num) (by norm_num) (by norm_num) (by norm_num) (by norm_num)
  have h15 : rnd 1200000014 = fin 1200000014 :=
    rnd_exact 1200000014 1200000014 0 (by norm_num) (by norm_num) (by norm_num) (by norm_num) (by norm_num)
  have h16 : rnd 3600000042 = fin 3600000042 :=
    rnd_exact 3600000042 3600000042 0 (by norm_num) (by norm_num) (by norm_num) (by norm_num) (by norm_num)
  have h17 : rnd 3600000036 = fin 3600000036 :=
    rnd_exact 3600000036 3600000036 0 (by norm_num) (by norm_num) (by norm_num) (by norm_num) (by norm_num)
  have h18 : rnd 360000007200000000 = fin 360000007200000000 :=
    rnd_exact 360000007200000000 5625000112500000 6 (by norm_num) (by norm_num) (by norm_num) (by norm_num) (by norm_num)
  have h19 : rnd 360000007200000036 = fin 360000007200000064 :=
    rnd_near 360000007200000036 360000007200000064 58 5625000112500001 (by norm_num) (by norm_num) (by norm_num) (by norm_num)
      (by norm_num) (by norm_num) (by norm_num)
  have h20 : rnd (-64) = fin (-64) :=
    rnd_exact (-64) (-64) 0 (by norm_num) (by norm_num) (by norm_num) (by norm_num) (by norm_num)
  have hr : List.range (Int.toNat 3) = [0, 1, 2] := by decide
  simp only [Binary64.regression_sums, hr, List.foldl_cons, List.foldl_nil,
    List.getD_cons_zero, List.getD_cons_succ, ofInt64]
  norm_num [add64_fin, mul64_fin, sub64_fin, div64_fin,
    h0, h1, h2, h3, h4, h5, h6, h7, h8, h9, h10, h11, h12, h13, h14, h15, h16, h17, h18, h19,
    h20]

/-- In binary64, on the same data, `linear_regression` returns the slope
`-0.09375` and the intercept `18750002.1875`. -/
theorem binary64_linear_regression :
    Binary64.linear_regression [fin 200000001, fin 200000002, fin 200000003]
        [fin 1, fin 2, fin 3] 3
      = { m := fin (-3 / 32), b := fin (300000035 / 16) } := by
  have h0 : rnd 200000001 = fin 200000001 :=
    rnd_exact 200000001 200000001 0 (by norm_num) (by norm_num) (by norm_num) (by norm_num) (by norm_num)
  have h1 : rnd 1 = fin 1 :=
    rnd_exact 1 1 0 (by norm_num) (by norm_num) (by norm_num) (by norm_num) (by norm_num)
  have h2 : rnd 40000000400000001 = fin 40000000400000000 :=
    rnd_near 40000000400000001 40000000400000000 55 5000000050000000 (by norm_num) (by norm_num) (by norm_num) (by norm_num)
      (by norm_num) (by norm_num) (by norm_num)
  have h3 : rnd 40000000400000000 = fin 40000000400000000 :=
    rnd_exact 40000000400000000 5000000050000000 3 (by norm_num) (by norm_num) (by norm_num) (by norm_num) (by norm_num)
  have h4 : rnd 400000003 = fin 400000003 :=
    rnd_exact 400000003 400000003 0 (by norm_num) (by norm_num) (by norm_num) (by norm_num) (by norm_num)
  have h5 : rnd 3 = fin 3 :=
    rnd_exact 3 3 0 (by norm_num) (by norm_num) (by norm_num) (by norm_num) (by norm_num)
  have h6 : rnd 40000000800000004 = fin 40000000800000000 :=
    rnd_tie 40000000800000004 40000000800000000 55 5000000100000000 (by norm_num) (by norm_num) (by norm_num) (by norm_num)
      (by norm_num) (by norm_num) (by decide)
  have h7 : rnd 80000001200000000 = fin 80000001200000000 :=
    rnd_exact 80000001200000000 5000000075000000 4 (by norm_num) (by norm_num) (by norm_num) (by norm_num) (by norm_num)
  have h8 : rnd 400000004 = fin 400000004 :=
    rnd_exact 400000004 400000004 0 (by norm_num) (by norm_num) (by norm_num) (by norm_num) (by norm_num)
  have h9 : rnd 600000005 = fin 600000005 :=
    rnd_exact 600000005 600000005 0 (by norm_num) (by norm_num) (by norm_num) (by norm_num) (by norm_num)
  have h10 : rnd 600000006 = fin 600000006 :=
    rnd_exact 600000006 600000006 0 (by norm_num) (by norm_num) (by norm_num) (by norm_num) (by norm_num)
  have h11 : rnd 6 = fin 6 :=
    rnd_exact 6 6 0 (by norm_num) (by norm_num) (by norm_num) (by norm_num) (by norm_num)
  have h12 : rnd 40000001200000009 = fin 40000001200000008 :=
    rnd_near 40000001200000009 40000001200000008 55 5000000150000001 (by norm_num) (by norm_num) (by norm_num) (by norm_num)
      (by norm_num) (by norm_num) (by norm_num)
  have h13 : rnd 120000002400000008 = fin 120000002400000000 :=
    rnd_tie 120000002400000008 120000002400000000 56 7500000150000000 (by norm_num) (by norm_num) (by norm_num) (by norm_num)
      (by norm_num) (by norm_num) (by decide)
  have h14 : rnd 600000009 = fin 600000009 :=
    rnd_exact 600000009 600000009 0 (by norm_num) (by norm_num) (by norm_num) (by norm_num) (by norm_num)
  have h15 : rnd 1200000014 = fin 1200000014 :=
    rnd_exact 1200000014 1200000014 0 (by norm_num) (by norm_num) (by norm_num) (by norm_num) (by norm_num)
  have h16 : rnd 3600000042 = fin 3600000042 :=
    rnd_exact 3600000042 3600000042 0 (by norm_num) (by norm_num) (by norm_num) (by norm_num) (by norm_num)
  have h17 : rnd 3600000036 = fin 3600000036 :=
    rnd_exact 3600000036 3600000036 0 (by norm_num) (by norm_num) (by norm_num) (by norm_num) (by norm_num)
  have h18 : rnd 360000007200000000 = fin 360000007200000000 :=
    rnd_exact 360000007200000000 5625000112500000 6 (by norm_num) (by norm_num) (by norm_num) (by norm_num) (by norm_num)
  have h19 : rnd 360000007200000036 = fin 360000007200000064 :=
    rnd_near 360000007200000036 360000007200000064 58 5625000112500001 (by norm_num) (by norm_num) (by norm_num) (by norm_num)
      (by norm_num) (by norm_num) (by norm_num)
  have h20 : rnd (-64) = fin (-64) :=
    rnd_exact (-64) (-64) 0 (by norm_num) (by norm_num) (by norm_num) (by norm_num) (by norm_num)
  have h21 : rnd (-(3 / 32)) = fin (-(3 / 32)) :=
    rnd_exact (-(3 / 32)) (-3) (-5) (by norm_num) (by norm_num) (by norm_num) (by norm_num) (by norm_num)
  have h22 : rnd (-(900000009 / 16)) = fin (-(900000009 / 16)) :=
    rnd_exact (-(900000009 / 16)) (-900000009) (-4) (by norm_num) (by norm_num) (by norm_num) (by norm_num) (by norm_num)
  have h23 : rnd (900000105 / 16) = fin (900000105 / 16) :=
    rnd_exact (900000105 / 16) 900000105 (-4) (by norm_num) (by norm_num) (by norm_num) (by norm_num) (by norm_num)
  have h24 : rnd (300000035 / 16) = fin (300000035 / 16) :=
    rnd_exact (300000035 / 16) 300000035 (-4) (by norm_num) (by norm_num) (by norm_num) (by norm_num) (by norm_num)
  have hr : List.range (Int.toNat 3) = [0, 1, 2] := by decide
  simp only [Binary64.linear_regression, Binary64.regression_sums, hr, List.foldl_cons,
    List.foldl_nil, List.getD_cons_zero, List.getD_cons_succ, ofInt64]
  norm_num [add64_fin, mul64_fin, sub64_fin, div64_fin,
    h0, h1, h2, h3, h4, h5, h6, h7, h8, h9, h10, h11, h12, h13, h14, h15, h16, h17, h18, h19,
    h20, h21, h22, h23, h24]

/-- In binary64, on the same integer data, `covariance` and
`calculate_variance` are both the double nearest to `2/3`, so their quotient
is `1`. -/
theorem binary64_cov_var :
    Binary64.covariance [200000001, 200000002, 200000003] [1, 2, 3] 3
        = fin (6004799503160661 / 9007199254740992)
      ∧ Binary64.calculate_variance [200000001, 200000002, 200000003] 3
        = fin (6004799503160661 / 9007199254740992)
      ∧ div64 (Binary64.covariance [200000001, 200000002, 200000003] [1, 2, 3] 3)
          (Binary64.calculate_variance [200000001, 200000002, 200000003] 3) = fin 1 := by
  have h0 : rnd 200000001 = fin 200000001 :=
    rnd_exact 200000001 200000001 0 (by norm_num) (by norm_num) (by norm_num) (by norm_num) (by norm_num)
  have h1 : rnd 200000002 = fin 200000002 :=
    rnd_exact 200000002 200000002 0 (by norm_num) (by norm_num) (by norm_num) (by norm_num) (by norm_num)
  have h2 : rnd 200000003 = fin 200000003 :=
    rnd_exact 200000003 200000003 0 (by norm_num) (by norm_num) (by norm_num) (by norm_num) (by norm_num)
  have h3 : rnd 1 = fin 1 :=
    rnd_exact 1 1 0 (by norm_num) (by norm_num) (by norm_num) (by norm_num) (by norm_num)
  have h4 : rnd 2 = fin 2 :=
    rnd_exact 2 2 0 (by norm_num) (by norm_num) (by norm_num) (by norm_num) (by norm_num)
  have h5 : rnd 3 = fin 3 :=
    rnd_exact 3 3 0 (by norm_num) (by norm_num) (by norm_num) (by norm_num) (by norm_num)
  have h6 : rnd 400000003 = fin 400000003 :=
    rnd_exact 400000003 400000003 0 (by norm_num) (by norm_num) (by norm_num) (by norm_num) (by norm_num)
  have h7 : rnd 600000006 = fin 600000006 :=
    rnd_exact 600000006 600000006 0 (by norm_num) (by norm_num) (by norm_num) (by norm_num) (by norm_num)
  have h8 : rnd 6 = fin 6 :=
    rnd_exact 6 6 0 (by norm_num) (by norm_num) (by norm_num) (by norm_num) (by norm_num)
  have h9 : rnd (-1) = fin (-1) :=
    rnd_exact (-1) (-1) 0 (by norm_num) (by norm_num) (by norm_num) (by norm_num) (by norm_num)
  have h10 : rnd 0 = fin 0 := rnd_exact 0 0 0 (by norm_num) (by norm_num) (by norm_num) (by norm_num) (by norm_num)
  have h11 : rnd (2 / 3) = fin (6004799503160661 / 9007199254740992) :=
    rnd_near (2 / 3) (6004799503160661 / 9007199254740992) (-1) 6004799503160661 (by norm_num) (by norm_num) (by norm_num) (by norm_num)
      (by norm_num) (by norm_num) (by norm_num)
  have i1 : ofInt64 1 = fin 1 := Binary64.ofInt64_small 1 1 (by norm_num) (by norm_num) (by norm_num)
  have i2 : ofInt64 2 = fin 2 := Binary64.ofInt64_small 2 2 (by norm_num) (by norm_num) (by norm_num)
  have i3 : ofInt64 3 = fin 3 := Binary64.ofInt64_small 3 3 (by norm_num) (by norm_num) (by norm_num)
  have ia : ofInt64 200000001 = fin 200000001 :=
    Binary64.ofInt64_small 200000001 200000001 (by norm_num) (by norm_num) (by norm_num)
  have ib : ofInt64 200000002 = fin 200000002 :=
    Binary64.ofInt64_small 200000002 200000002 (by norm_num) (by norm_num) (by norm_num)
  have ic : ofInt64 200000003 = fin 200000003 :=
    Binary64.ofInt64_small 200000003 200000003 (by norm_num) (by norm_num) (by norm_num)
  have hmx : Binary64.sample_average [200000001, 200000002, 200000003] 3
      = fin 200000002 := by
    rw [Binary64.sample_average_three, ia, ib, ic, i3]
    norm_num [add64_fin, mul64_fin, sub64_fin, div64_fin,
    h0, h1, h2, h3, h4, h5, h6, h7, h8, h9, h10, h11]
  have hmy : Binary64.sample_average [1, 2, 3] 3 = fin 2 := by
    rw [Binary64.sample_average_three, i1, i2, i3]
    norm_num [add64_fin, mul64_fin, sub64_fin, div64_fin,
    h0, h1, h2, h3, h4, h5, h6, h7, h8, h9, h10, h11]
  have hcov : Binary64.covariance [200000001, 200000002, 200000003] [1, 2, 3] 3
      = fin (6004799503160661 / 9007199254740992) := by
    rw [Binary64.covariance_three _ _ _ _ _ _ _ _ hmx hmy, ia, ib, ic, i1, i2, i3]
    norm_num [add64_fin, mul64_fin, sub64_fin, div64_fin,
    h0, h1, h2, h3, h4, h5, h6, h7, h8, h9, h10, h11]
  have hvar : Binary64.calculate_variance [200000001, 200000002, 200000003] 3
      = fin (6004799503160661 / 9007199254740992) := by
    rw [Binary64.calculate_variance_three _ _ _ _ hmx, ia, ib, ic, i3]
    norm_num [add64_fin, mul64_fin, sub64_fin, div64_fin,
    h0, h1, h2, h3, h4, h5, h6, h7, h8, h9, h10, h11]
  refine ⟨hcov, hvar, ?_⟩
  rw [hcov, hvar]
  norm_num [div64_fin,
    h0, h1, h2, h3, h4, h5, h6, h7, h8, h9, h10, h11]

/-- In binary64, on the constant `x = {3,3,3}` every step is exact, numerator and
denominator are `0`, and the model is `(NaN, NaN)`. -/
theorem binary64_constant_three :
    Binary64.linear_regression [fin 3, fin 3, fin 3] [fin 1, fin 2, fin 3] 3
      = { m := nan, b := nan } := by
  have h0 : rnd 3 = fin 3 :=
    rnd_exact 3 3 0 (by norm_num) (by norm_num) (by norm_num) (by norm_num) (by norm_num)
  have h1 : rnd 1 = fin 1 :=
    rnd_exact 1 1 0 (by norm_num) (by norm_num) (by norm_num) (by norm_num) (by norm_num)
  have h2 : rnd 9 = fin 9 :=
    rnd_exact 9 9 0 (by norm_num) (by norm_num) (by norm_num) (by norm_num) (by norm_num)
  have h3 : rnd 6 = fin 6 :=
    rnd_exact 6 6 0 (by norm_num) (by norm_num) (by norm_num) (by norm_num) (by norm_num)
  have h4 : rnd 18 = fin 18 :=
    rnd_exact 18 18 0 (by norm_num) (by norm_num) (by norm_num) (by norm_num) (by norm_num)
  have h5 : rnd 27 = fin 27 :=
    rnd_exact 27 27 0 (by norm_num) (by norm_num) (by norm_num) (by norm_num) (by norm_num)
  have h6 : rnd 54 = fin 54 :=
    rnd_exact 54 54 0 (by norm_num) (by norm_num) (by norm_num) (by norm_num) (by norm_num)
  have h7 : rnd 0 = fin 0 := rnd_exact 0 0 0 (by norm_num) (by norm_num) (by norm_num) (by norm_num) (by norm_num)
  have h8 : rnd 81 = fin 81 :=
    rnd_exact 81 81 0 (by norm_num) (by norm_num) (by norm_num) (by norm_num) (by norm_num)
  have hr : List.range (Int.toNat 3) = [0, 1, 2] := by decide
  simp only [Binary64.linear_regression, Binary64.regression_sums, hr,
    List.foldl_cons, List.foldl_nil, List.getD_cons_zero, List.getD_cons_succ, ofInt64]
  norm_num [add64_fin, mul64_fin, sub64_fin, Binary64.div64_zero_zero,
    Binary64.mul64_nan_left, Binary64.sub64_nan_right,
    Binary64.div64_nan_left,
    h0, h1, h2, h3, h4, h5, h6, h7, h8]

/-- In binary64, on the constant `x = {7,7}` the computed denominator is `0`. -/
theorem binary64_den_seven :
    sub64
        (mul64 (ofInt64 2)
          (Binary64.regression_sums [fin 7, fin 7] [fin 1, fin 5] 2).sum_x2)
        (mul64 (Binary64.regression_sums [fin 7, fin 7] [fin 1, fin 5] 2).sum_x
          (Binary64.regression_sums [fin 7, fin 7] [fin 1, fin 5] 2).sum_x)
      = fin 0 := by
  have h0 : rnd 7 = fin 7 :=
    rnd_exact 7 7 0 (by norm_num) (by norm_num) (by norm_num) (by norm_num) (by norm_num)
  have h1 : rnd 1 = fin 1 :=
    rnd_exact 1 1 0 (by norm_num) (by norm_num) (by norm_num) (by norm_num) (by norm_num)
  have h2 : rnd 49 = fin 49 :=
    rnd_exact 49 49 0 (by norm_num) (by norm_num) (by norm_num) (by norm_num) (by norm_num)
  have h3 : rnd 14 = fin 14 :=
    rnd_exact 14 14 0 (by norm_num) (by norm_num) (by norm_num) (by norm_num) (by norm_num)
  have h4 : rnd 6 = fin 6 :=
    rnd_exact 6 6 0 (by norm_num) (by norm_num) (by norm_num) (by norm_num) (by norm_num)
  have h5 : rnd 98 = fin 98 :=
    rnd_exact 98 98 0 (by norm_num) (by norm_num) (by norm_num) (by norm_num) (by norm_num)
  have h6 : rnd 35 = fin 35 :=
    rnd_exact 35 35 0 (by norm_num) (by norm_num) (by norm_num) (by norm_num) (by norm_num)
  have h7 : rnd 42 = fin 42 :=
    rnd_exact 42 42 0 (by norm_num) (by norm_num) (by norm_num) (by norm_num) (by norm_num)
  have h8 : rnd 2 = fin 2 :=
    rnd_exact 2 2 0 (by norm_num) (by norm_num) (by norm_num) (by norm_num) (by norm_num)
  have h9 : rnd 84 = fin 84 :=
    rnd_exact 84 84 0 (by norm_num) (by norm_num) (by norm_num) (by norm_num) (by norm_num)
  have h10 : rnd 0 = fin 0 := rnd_exact 0 0 0 (by norm_num) (by norm_num) (by norm_num) (by norm_num) (by norm_num)
  have h11 : rnd 196 = fin 196 :=
    rnd_exact 196 196 0 (by norm_num) (by norm_num) (by norm_num) (by norm_num) (by norm_num)
  have hr : List.range (Int.toNat 2) = [0, 1] := by decide
  simp only [Binary64.regression_sums, hr,
    List.foldl_cons, List.foldl_nil, List.getD_cons_zero, List.getD_cons_succ, ofInt64]
  norm_num [add64_fin, mul64_fin, sub64_fin,
    h0, h1, h2, h3, h4, h5, h6, h7, h8, h9, h10, h11]

/-- In binary64, on the converted integer data, `linear_regression` returns the
slope `-0.09375`. -/
theorem binary64_linear_regression_int :
    Binary64.linear_regression ([200000001, 200000002, 200000003].map ofInt64)
        ([1, 2, 3].map ofInt64) 3
      = { m := fin (-3 / 32), b := fin (300000035 / 16) } := by
  have i1 : ofInt64 1 = fin 1 :=
    Binary64.ofInt64_small 1 1 (by norm_num) (by norm_num) (by norm_num)
  have i2 : ofInt64 2 = fin 2 :=
    Binary64.ofInt64_small 2 2 (by norm_num) (by norm_num) (by norm_num)
  have i3 : ofInt64 3 = fin 3 :=
    Binary64.ofInt64_small 3 3 (by norm_num) (by norm_num) (by norm_num)
  have ia : ofInt64 200000001 = fin 200000001 :=
    Binary64.ofInt64_small 200000001 200000001 (by norm_num) (by norm_num) (by norm_num)
  have ib : ofInt64 200000002 = fin 200000002 :=
    Binary64.ofInt64_small 200000002 200000002 (by norm_num) (by norm_num) (by norm_num)
  have ic : ofInt64 200000003 = fin 200000003 :=
    Binary64.ofInt64_small 200000003 200000003 (by norm_num) (by norm_num) (by norm_num)
  rw [Binary64.map_ofInt64_three, Binary64.map_ofInt64_three, ia, ib, ic, i1, i2, i3]
  exact binary64_linear_regression

end Binary64Traces

/-! ## The claims that depend on rounding -/

section RoundingClaims

variable {K : Type} [LinearOrderedField K]

open Binary64 (sub64 mul64 div64 ofInt64)

/-- C9 (as amended): when `X` has length `n ≥ 1` and all its values are equal,
and `Y` has the same length, `linear_regression` (in binary64) signals no error:
the slope it returns is the quotient by the computed denominator
`n·Σx² - (Σx)²`, taken without any check, and whenever that computed
denominator is `0` neither the slope nor the intercept is a finite value (each
is NaN or an infinity). -/
theorem linear_regression_constant_x (xs ys : List ℚ) (n : Nat) (hn : 1 ≤ n)
    (hx : xs.length = n) (hy : ys.length = n) (hc : AllEqual xs n) :
    (Binary64.linear_regression (xs.map fin) (ys.map fin) (n : Int)).m
        = div64
            (sub64
              (mul64 (ofInt64 (n : Int))
                (Binary64.regression_sums (xs.map fin) (ys.map fin) (n : Int)).sum_xy)
              (mul64 (Binary64.regression_sums (xs.map fin) (ys.map fin) (n : Int)).sum_x
                (Binary64.regression_sums (xs.map fin) (ys.map fin) (n : Int)).sum_y))
            (sub64
              (mul64 (ofInt64 (n : Int))
                (Binary64.regression_sums (xs.map fin) (ys.map fin) (n : Int)).sum_x2)
              (mul64 (Binary64.regression_sums (xs.map fin) (ys.map fin) (n : Int)).sum_x
                (Binary64.regression_sums (xs.map fin) (ys.map fin) (n : Int)).sum_x))
      ∧ (sub64
            (mul64 (ofInt64 (n : Int))
              (Binary64.regression_sums (xs.map fin) (ys.map fin) (n : Int)).sum_x2)
            (mul64 (Binary64.regression_sums (xs.map fin) (ys.map fin) (n : Int)).sum_x
              (Binary64.regression_sums (xs.map fin) (ys.map fin) (n : Int)).sum_x)
          = fin 0 →
          (∀ v, (Binary64.linear_regression (xs.map fin) (ys.map fin) (n : Int)).m ≠ fin v)
            ∧ ∀ v, (Binary64.linear_regression (xs.map fin) (ys.map fin) (n : Int)).b
                ≠ fin v) := by
  have _h := And.intro (And.intro hn hc) (hx.trans hy.symm)
  exact ⟨rfl, fun hden => Binary64.linear_regression_den_zero _ _ _ hden⟩

end RoundingClaims

/-! ## Instances -/

section Instances

/-- The data `{1,2,3}`, `{1,3,2}`: the fitted line is at least as good as every
other line. -/
theorem linear_regression_least_squares_witness :
    ¬ AllEqual ([1, 2, 3] : List ℚ) 3
      ∧ ∃ m b : ℚ,
          linear_regression (List.map fin [1, 2, 3]) (List.map fin [1, 3, 2]) ((3 : Nat) : Int)
              = { m := fin m, b := fin b }
            ∧ ∀ m' b' : ℚ, rss [1, 2, 3] [1, 3, 2] 3 m b ≤ rss [1, 2, 3] [1, 3, 2] 3 m' b' := by
  have hv : ¬ AllEqual ([1, 2, 3] : List ℚ) 3 := by
    intro h
    have h01 := h 0 (by norm_num) 1 (by norm_num)
    norm_num at h01
  exact ⟨hv, linear_regression_least_squares [1, 2, 3] [1, 3, 2] 3 (by norm_num) rfl rfl hv⟩

/-- The data `{1,2,3}`, `{1,3,2}`: slope `1/2` and intercept `1`. -/
theorem linear_regression_formula_witness :
    linear_regression ([fin 1, fin 2, fin 3] : List (Double ℚ)) [fin 1, fin 3, fin 2] 3
      = { m := fin (1 / 2), b := fin 1 } := by
  have h := (linear_regression_formula ([1, 2, 3] : List ℚ) [1, 3, 2] 3 (by norm_num)
    (by simp) (by simp)).2
  simp only [sumX, sumXY, Finset.sum_range_succ, Finset.sum_range_zero] at h
  norm_num at h
  exact h

/-- The data `{0,1}`, `{5,8}` lie on `y = 3·x + 5`. -/
theorem linear_regression_exact_witness :
    linear_regression ([fin 0, fin 1] : List (Double ℚ)) [fin 5, fin 8] 2
      = { m := fin 3, b := fin 5 } := by
  have hv : ¬ AllEqual ([0, 1] : List ℚ) 2 := by
    intro h
    have h01 := h 0 (by norm_num) 1 (by norm_num)
    norm_num at h01
  have hl : ∀ i < 2, ([5, 8] : List ℚ).getD i 0 = 3 * ([0, 1] : List ℚ).getD i 0 + 5 := by
    intro i hi
    interval_cases i <;> norm_num
  exact (linear_regression_exact ([0, 1] : List ℚ) [5, 8] 2 (by norm_num) rfl rfl hv 3 5 hl).1

/-- The population variance of `{1,3}`. -/
theorem calculate_variance_spec_witness :
    ∃ mean : ℚ, sample_average ℚ [1, 3] ((2 : Nat) : Int) = fin mean
      ∧ calculate_variance ℚ [1, 3] ((2 : Nat) : Int)
          = fin (1 / ((2 : Nat) : ℚ)
              * ∑ i in Finset.range 2, (((([1, 3] : List Int).getD i 0 : Int) : ℚ) - mean) ^ 2)
      ∧ calculate_variance ℚ [1, 2, 3, 4, 5] 5 = fin 2 :=
  calculate_variance_spec [1, 3] 2 (by norm_num) (by simp)

/-- Over the reals, the standard deviation of `{1,7}` is the square root of
its mean `4`. -/
theorem standard_deviation_spec_witness :
    (∀ a : ℝ, 0 ≤ a → Real.sqrt a * Real.sqrt a = a)
      ∧ standard_deviation Real.sqrt [1, 7] ((2 : Nat) : Int)
          = Double.sqrt Real.sqrt (sample_average ℝ [1, 7] ((2 : Nat) : Int)) :=
  ⟨fun _ ha => Real.mul_self_sqrt ha,
    (standard_deviation_spec Real.sqrt (fun _ ha => Real.mul_self_sqrt ha) [1, 7] 2
      (by norm_num)).1⟩

/-- Over the reals, the correlation of `{1,7}` and `{2,6}`. -/
theorem correlation_spec_witness :
    correlation Real.sqrt [1, 7] [2, 6] ((2 : Nat) : Int)
      = covariance ℝ [1, 7] [2, 6] ((2 : Nat) : Int)
          / (standard_deviation Real.sqrt [1, 7] ((2 : Nat) : Int)
              * standard_deviation Real.sqrt [2, 6] ((2 : Nat) : Int)) :=
  (correlation_spec Real.sqrt [1, 7] [2, 6] 2 (by norm_num)).1

/-- On the constant `X = {3,3,3}` with `Y = {1,2,3}` the returned model is
`(NaN, NaN)`, in exact arithmetic and in binary64: no error is signalled. -/
theorem linear_regression_constant_x_counterexample :
    linear_regression ([fin 3, fin 3, fin 3] : List (Double ℚ)) [fin 1, fin 2, fin 3] 3
        = { m := nan, b := nan }
      ∧ Binary64.linear_regression [fin 3, fin 3, fin 3] [fin 1, fin 2, fin 3] 3
        = { m := nan, b := nan } := by
  have hc : AllEqual ([3, 3, 3] : List ℚ) 3 := by
    intro i hi j hj
    interval_cases i <;> interval_cases j <;> rfl
  exact ⟨linear_regression_of_allEqual ([3, 3, 3] : List ℚ) [1, 2, 3] 3 (by norm_num) hc,
    binary64_constant_three⟩

/-- The constant `X = {7,7}` with `Y = {1,5}`: the computed denominator is `0`
and neither the slope nor the intercept is finite. -/
theorem linear_regression_constant_x_witness :
    AllEqual ([7, 7] : List ℚ) 2
      ∧ (∀ v, (Binary64.linear_regression (List.map fin [7, 7]) (List.map fin [1, 5])
            ((2 : Nat) : Int)).m ≠ fin v)
      ∧ ∀ v, (Binary64.linear_regression (List.map fin [7, 7]) (List.map fin [1, 5])
            ((2 : Nat) : Int)).b ≠ fin v := by
  have hc : AllEqual ([7, 7] : List ℚ) 2 := by
    intro i hi j hj
    interval_cases i <;> interval_cases j <;> rfl
  exact ⟨hc, (linear_regression_constant_x ([7, 7] : List ℚ) [1, 5] 2 (by norm_num) rfl rfl
    hc).2 binary64_den_seven⟩

/-- On the empty sequence with size `0` each of the three functions returns
NaN: no error is signalled. -/
theorem empty_input_counterexample :
    sample_average ℚ [] 0 = nan ∧ calculate_variance ℚ [] 0 = nan
      ∧ standard_deviation (fun a : ℚ => a) [] 0 = nan :=
  ⟨sample_average_zero ℚ [], calculate_variance_zero ℚ [],
    standard_deviation_zero ℚ (fun a => a) []⟩

/-- On `{3,5,9}` and `{0,2}`, of lengths `3` and `2`, with size `2`, and on
`{1,2,3}` and `{2,4}`, every function returns a finite result computed from the
first two elements: no error is signalled. -/
theorem length_mismatch_counterexample :
    ([3, 5, 9] : List Int).length ≠ ([0, 2] : List Int).length
      ∧ covariance ℝ [3, 5, 9] [0, 2] 2 = fin 1
      ∧ correlation Real.sqrt [3, 5, 9] [0, 2] 2 = fin (1 / 2)
      ∧ linear_regression ([fin 1, fin 2, fin 3] : List (Double ℝ)) [fin 2, fin 4] 2
          = { m := fin 2, b := fin 0 } := by
  have hcov : covariance ℝ [3, 5, 9] [0, 2] 2 = fin 1 := by
    have h := covariance_fin ℝ [3, 5, 9] [0, 2] 2 (by norm_num)
    simp only [intSum, Finset.sum_range_succ, Finset.sum_range_zero] at h
    norm_num at h
    exact h
  have hmx : sample_average ℝ [3, 5, 9] 2 = fin 4 := by
    have h := sample_average_fin ℝ [3, 5, 9] 2 (by norm_num)
    simp only [intSum, Finset.sum_range_succ, Finset.sum_range_zero] at h
    norm_num at h
    exact h
  have hmy : sample_average ℝ [0, 2] 2 = fin 1 := by
    have h := sample_average_fin ℝ [0, 2] 2 (by norm_num)
    simp only [intSum, Finset.sum_range_succ, Finset.sum_range_zero] at h
    norm_num at h
    exact h
  have h4 : Real.sqrt 4 = 2 := by
    rw [show (4 : ℝ) = 2 * 2 by norm_num]
    exact Real.sqrt_mul_self (by norm_num)
  have hcor : correlation Real.sqrt [3, 5, 9] [0, 2] 2 = fin (1 / 2) := by
    have hdef : correlation Real.sqrt [3, 5, 9] [0, 2] 2
        = covariance ℝ [3, 5, 9] [0, 2] 2
          / (Double.sqrt Real.sqrt (sample_average ℝ [3, 5, 9] 2)
              * Double.sqrt Real.sqrt (sample_average ℝ [0, 2] 2)) := rfl
    rw [hdef, hcov, hmx, hmy, sqrt_fin_of_nonneg Real.sqrt 4 (by norm_num),
      sqrt_fin_of_nonneg Real.sqrt 1 (by norm_num), h4, Real.sqrt_one, fin_mul_fin,
      fin_div_fin _ _ (by norm_num)]
    norm_num
  have hv : ¬ AllEqual ([1, 2, 3] : List ℝ) 2 := by
    intro h
    have h01 := h 0 (by norm_num) 1 (by norm_num)
    norm_num at h01
  have hl : ∀ i < 2, ([2, 4] : List ℝ).getD i 0 = 2 * ([1, 2, 3] : List ℝ).getD i 0 + 0 := by
    intro i hi
    interval_cases i <;> norm_num
  exact ⟨by decide, hcov, hcor,
    linear_regression_of_linear ([1, 2, 3] : List ℝ) [2, 4] 2 (by norm_num) hv 2 0 hl⟩

/-- The sequences `{1,2,3}` and `{2,8}` with size `2`. -/
theorem length_mismatch_uses_size_witness :
    ([1, 2, 3] : List Int).length ≠ ([2, 8] : List Int).length
      ∧ covariance ℚ [1, 2, 3] [2, 8] ((2 : Nat) : Int)
          = covariance ℚ (List.take 2 [1, 2, 3]) (List.take 2 [2, 8]) ((2 : Nat) : Int) :=
  ⟨by decide,
    (length_mismatch_uses_size (fun a : ℚ => a) [1, 2, 3] [2, 8] [1, 2, 3] [2, 8] 2
      (by norm_num) (by simp) (by simp) (by simp) (by simp) (by simp) (by simp)).1⟩

/-- The constant sequence `{3,3,3}`: the denominator is `3·27 - 9·9 = 0`. -/
theorem regression_denominator_zero_witness :
    AllEqual ([3, 3, 3] : List ℚ) 3
      ∧ ((3 : Nat) : ℚ) * sumXY [3, 3, 3] [3, 3, 3] 3 - sumX [3, 3, 3] 3 * sumX [3, 3, 3] 3 = 0 := by
  have hc : AllEqual ([3, 3, 3] : List ℚ) 3 := by
    intro i hi j hj
    interval_cases i <;> interval_cases j <;> rfl
  exact ⟨hc, (regression_denominator_zero ([3, 3, 3] : List ℚ) [1, 2, 3] 3 (by norm_num) hc).1⟩

/-- With mean `0` for `{-1,1}` and mean `-1` for `{-1,-1}` the denominator of
`correlation` is NaN, not `0`. -/
theorem correlation_zero_mean_counterexample :
    sample_average ℝ [-1, 1] 2 = fin 0
      ∧ sample_average ℝ [-1, -1] 2 = fin (-1)
      ∧ standard_deviation Real.sqrt [-1, 1] 2 * standard_deviation Real.sqrt [-1, -1] 2
          = nan
      ∧ standard_deviation Real.sqrt [-1, 1] 2 * standard_deviation Real.sqrt [-1, -1] 2
          ≠ fin 0 := by
  have hmx : sample_average ℝ [-1, 1] 2 = fin 0 := by
    have h := sample_average_fin ℝ [-1, 1] 2 (by norm_num)
    simp only [intSum, Finset.sum_range_succ, Finset.sum_range_zero] at h
    norm_num at h
    exact h
  have hmy : sample_average ℝ [-1, -1] 2 = fin (-1) := by
    have h := sample_average_fin ℝ [-1, -1] 2 (by norm_num)
    simp only [intSum, Finset.sum_range_succ, Finset.sum_range_zero] at h
    norm_num at h
    exact h
  have hden : standard_deviation Real.sqrt [-1, 1] 2
      * standard_deviation Real.sqrt [-1, -1] 2 = nan := by
    rw [standard_deviation, standard_deviation, hmx, hmy]
    exact std_mul_of_neg_mean Real.sqrt 0 (-1) (Or.inr (by norm_num))
  refine ⟨hmx, hmy, hden, ?_⟩
  rw [hden]
  exact fun h => Double.noConfusion h

/-- With mean `0` for `{-1,1}` and mean `2` for `{1,3}` the denominator of
`correlation` is `0`. -/
theorem correlation_zero_mean_witness :
    sample_average ℝ [-1, 1] ((2 : Nat) : Int) = fin 0
      ∧ standard_deviation Real.sqrt [-1, 1] ((2 : Nat) : Int)
          * standard_deviation Real.sqrt [1, 3] ((2 : Nat) : Int) = fin 0 := by
  have hmx : sample_average ℝ [-1, 1] ((2 : Nat) : Int) = fin 0 := by
    have h := sample_average_fin ℝ [-1, 1] 2 (by norm_num)
    simp only [intSum, Finset.sum_range_succ, Finset.sum_range_zero] at h
    norm_num at h
    simpa using h
  have hmy : sample_average ℝ [1, 3] ((2 : Nat) : Int) = fin 2 := by
    have h := sample_average_fin ℝ [1, 3] 2 (by norm_num)
    simp only [intSum, Finset.sum_range_succ, Finset.sum_range_zero] at h
    norm_num at h
    simpa using h
  exact ⟨hmx, (correlation_zero_mean Real.sqrt (fun _ ha => Real.mul_self_sqrt ha)
    [-1, 1] [1, 3] 2 (by norm_num) 0 2 hmx hmy (Or.inl rfl)).1 (le_refl 0) (by norm_num)⟩

/-- The data `{1,2,3}`: the denominator `3·14 - 6·6` is `9` times the
population variance. -/
theorem regression_denominator_eq_variance_witness :
    ((3 : Nat) : ℚ) * sumXY [1, 2, 3] [1, 2, 3] 3 - sumX [1, 2, 3] 3 * sumX [1, 2, 3] 3
      = ((3 : Nat) : ℚ) ^ 2 * popVar [1, 2, 3] 3 :=
  (regression_denominator_eq_variance ([1, 2, 3] : List ℚ) [1, 3, 2] 3 (by norm_num)).2.1

/-- The integer data `{1,2,3}`, `{1,3,2}`. -/
theorem linear_regression_eq_cov_div_var_witness :
    ¬ AllEqualInt [1, 2, 3] 3
      ∧ (linear_regression ([1, 2, 3].map (ofInt : Int → Double ℚ)) ([1, 3, 2].map ofInt)
            ((3 : Nat) : Int)).m
          = covariance ℚ [1, 2, 3] [1, 3, 2] ((3 : Nat) : Int)
            / calculate_variance ℚ [1, 2, 3] ((3 : Nat) : Int) := by
  have hv : ¬ AllEqualInt [1, 2, 3] 3 := by
    intro h
    have h01 := h 0 (by norm_num) 1 (by norm_num)
    norm_num at h01
  exact ⟨hv, (linear_regression_eq_cov_div_var [1, 2, 3] [1, 3, 2] 3 (by norm_num) hv).1⟩

/-- Over the reals, with the real square root, the correlation of `{0,100}`
with itself is `50`. -/
theorem correlation_exceeds_one_witness :
    correlation Real.sqrt [0, 100] [0, 100] 2 = fin 50 ∧ (1 : ℝ) < 50 :=
  ⟨(correlation_exceeds_one Real.sqrt (fun _ ha => Real.mul_self_sqrt ha)).2.2.2.1,
    by norm_num⟩

/-- The covariance of `{1,3}` with itself is its variance. -/
theorem covariance_self_witness :
    covariance ℚ [1, 3] [1, 3] ((2 : Nat) : Int) = calculate_variance ℚ [1, 3] ((2 : Nat) : Int) :=
  (covariance_self [1, 3] 2 (by norm_num)).1

/-- The covariance of `{1,3}` and `{2,8}` in either order. -/
theorem covariance_symm_witness :
    covariance ℚ [1, 3] [2, 8] ((2 : Nat) : Int) = covariance ℚ [2, 8] [1, 3] ((2 : Nat) : Int) :=
  (covariance_symm (fun a : ℚ => a) [1, 3] [2, 8] 2 (by norm_num) (by simp) (by simp)).1

/-- In binary64, on `x = {200000001, 200000002, 200000003}`, `y = {1, 2, 3}`,
`linear_regression` returns `(-0.09375, 18750002.1875)`, while the closed form
of the sums has the value `(1, -200000000)`. -/
theorem linear_regression_formula_counterexample :
    Binary64.linear_regression [fin 200000001, fin 200000002, fin 200000003]
        [fin 1, fin 2, fin 3] 3
        = { m := fin (-3 / 32), b := fin (300000035 / 16) }
      ∧ ((3 : ℚ) * sumXY [200000001, 200000002, 200000003] [1, 2, 3] 3
            - sumX [200000001, 200000002, 200000003] 3 * sumX [1, 2, 3] 3)
          / ((3 : ℚ) * sumXY [200000001, 200000002, 200000003]
                [200000001, 200000002, 200000003] 3
              - sumX [200000001, 200000002, 200000003] 3
                * sumX [200000001, 200000002, 200000003] 3) = 1
      ∧ (sumX [1, 2, 3] 3 - 1 * sumX ([200000001, 200000002, 200000003] : List ℚ) 3) / 3
          = -200000000 := by
  refine ⟨binary64_linear_regression, ?_, ?_⟩
  · simp only [sumX, sumXY, Finset.sum_range_succ, Finset.sum_range_zero,
      List.getD_cons_zero, List.getD_cons_succ]
    norm_num
  · simp only [sumX, Finset.sum_range_succ, Finset.sum_range_zero,
      List.getD_cons_zero, List.getD_cons_succ]
    norm_num

/-- In binary64, on the non-constant `x = {200000001, 200000002, 200000003}`
the denominator computed by `linear_regression` is `-64`: it is negative, and it
is not `9` times the computed variance. -/
theorem regression_denominator_counterexample :
    ¬ AllEqual ([200000001, 200000002, 200000003] : List ℚ) 3
      ∧ Binary64.sub64
          (Binary64.mul64 (Binary64.ofInt64 3)
            (Binary64.regression_sums [fin 200000001, fin 200000002, fin 200000003]
              [fin 1, fin 2, fin 3] 3).sum_x2)
          (Binary64.mul64
            (Binary64.regression_sums [fin 200000001, fin 200000002, fin 200000003]
              [fin 1, fin 2, fin 3] 3).sum_x
            (Binary64.regression_sums [fin 200000001, fin 200000002, fin 200000003]
              [fin 1, fin 2, fin 3] 3).sum_x)
          = fin (-64)
      ∧ (-64 : ℚ) < 0
      ∧ Binary64.calculate_variance [200000001, 200000002, 200000003] 3
          = fin (6004799503160661 / 9007199254740992) := by
  have hv : ¬ AllEqual ([200000001, 200000002, 200000003] : List ℚ) 3 := by
    intro h
    have h01 := h 0 (by norm_num) 1 (by norm_num)
    norm_num at h01
  exact ⟨hv, binary64_regression_den, by norm_num, binary64_cov_var.2.1⟩

/-- In binary64, on the integer data `x = {200000001, 200000002, 200000003}`,
`y = {1, 2, 3}`, the slope returned by `linear_regression` is `-0.09375` while
`covariance / calculate_variance` is `1`. -/
theorem linear_regression_eq_cov_div_var_counterexample :
    ¬ AllEqualInt [200000001, 200000002, 200000003] 3
      ∧ (Binary64.linear_regression ([200000001, 200000002, 200000003].map Binary64.ofInt64)
            ([1, 2, 3].map Binary64.ofInt64) 3).m = fin (-3 / 32)
      ∧ Binary64.div64 (Binary64.covariance [200000001, 200000002, 200000003] [1, 2, 3] 3)
          (Binary64.calculate_variance [200000001, 200000002, 200000003] 3) = fin 1
      ∧ (-3 / 32 : ℚ) ≠ 1 := by
  have hv : ¬ AllEqualInt [200000001, 200000002, 200000003] 3 := by
    intro h
    have h01 := h 0 (by norm_num) 1 (by norm_num)
    norm_num at h01
  refine ⟨hv, ?_, binary64_cov_var.2.2, by norm_num⟩
  rw [binary64_linear_regression_int]

end Instances

end Regression
